import Mathlib

/-! InnerProductLayer (caffeine/layers/inner_product_layer.cpp).

A shallow embedding of the fully-connected layer: `SetUp`, `Forward_cpu`,
`Backward_cpu`, `Forward_gpu`, `Backward_gpu`.
The inline members of `CrossEntropyLayer` (caffe/layers/cross_entropy.hpp) are
embedded as well; its `Forward`/`Backward` are only declared in that header.

Modelling conventions.
* `Dtype` is an arbitrary commutative ring `α` (exact arithmetic); rounding is
  not modelled.
* `int` dimensions are natural numbers; no dimension product is reduced
  modulo a machine word.
* A `Blob` owns a value array and a gradient array, both flat, row-major.
  The host and the device view of an array are the same list.
* A fatal `CHECK` failure and the integer division by zero are aborts; the
  abort records the state the process had reached.
* Indexing a vector out of range or dereferencing a null `bias_multiplier_`
  is undefined in the source; `Forward`/`Backward` return `none` there.
-/

namespace caffeine

/-- Transpose flag of the BLAS interface. -/
inductive CBLAS_TRANSPOSE where
  | CblasNoTrans
  | CblasTrans
deriving DecidableEq

/-- Modelled from the spec: the numeric buffer of caffeine/blob.hpp, a 4-D shape
with a value array `data` and a gradient array `diff`. -/
structure Blob (α : Type) where
  num : Nat
  channels : Nat
  height : Nat
  width : Nat
  data : List α
  diff : List α
deriving DecidableEq

/-- Modelled from the spec: `count = N*C*H*W`. -/
def Blob.count {α : Type} (b : Blob α) : Nat :=
  b.num * b.channels * b.height * b.width

/-- Modelled from the spec: a blob that was never reshaped, with zero shape and no
storage; it is the element `std::vector::resize` appends. -/
def Blob.empty {α : Type} : Blob α :=
  { num := 0, channels := 0, height := 0, width := 0, data := [], diff := [] }

/-- Modelled from the spec: `Reshape` sets the shape and discards and reallocates
both arrays. The fresh arrays are represented zero-filled; every statement
about later writes quantifies over arbitrary array contents instead. -/
def Blob.Reshape {α : Type} [Zero α] (_b : Blob α) (n c h w : Nat) : Blob α :=
  { num := n, channels := c, height := h, width := w,
    data := List.replicate (n * c * h * w) 0,
    diff := List.replicate (n * c * h * w) 0 }

/-- The 4-D shape of a blob. -/
def Blob.shape {α : Type} (b : Blob α) : Nat × Nat × Nat × Nat :=
  (b.num, b.channels, b.height, b.width)

/-- Both arrays of a blob hold exactly `count` elements. -/
def Blob.wf {α : Type} (b : Blob α) : Prop :=
  b.data.length = b.count ∧ b.diff.length = b.count

/-- Modelled from the spec: a filler (caffeine/filler.hpp) is a deterministic
strategy; `f b i` is the value it writes at offset `i` of the value array of
blob `b`. -/
abbrev Filler (α : Type) := Blob α → Nat → α

/-- Modelled from the spec: `Fill` writes the value array only. -/
def Filler.Fill {α : Type} (f : Filler α) (b : Blob α) : Blob α :=
  { b with data := (List.range b.count).map (f b) }

/-- Modelled from the spec: the configuration record the layer reads through
`layer_param_` (output width, bias switch, the two filler strategies). -/
structure LayerParameter (α : Type) where
  num_output : Nat
  biasterm : Bool
  weight_filler : Filler α
  bias_filler : Filler α

/-- The members of `InnerProductLayer<Dtype>` the source file uses;
`bias_multiplier_` is a shared pointer, `none` while it is null. -/
structure InnerProductLayer (α : Type) where
  layer_param_ : LayerParameter α
  blobs_ : List (Blob α)
  biasterm_ : Bool
  M_ : Nat
  K_ : Nat
  N_ : Nat
  bias_multiplier_ : Option (List α)

/-- The memory a layer call can touch: the layer object and the blobs the two
vectors point to. -/
structure State (α : Type) where
  layer : InnerProductLayer α
  bottom : List (Blob α)
  top : List (Blob α)

/-- Why a call terminated the process. -/
inductive Fatal where
  | check_bottom_size
  | check_top_size
  | division_by_zero
deriving DecidableEq

/-- An abort: its cause and the state reached when it happened. -/
structure Abort (α : Type) where
  cause : Fatal
  state : State α

/-- The operation `std::vector::resize` on the parameter blobs. -/
def resize {α : Type} (v : List (Blob α)) (n : Nat) : List (Blob α) :=
  v.take n ++ List.replicate (n - v.length) Blob.empty

/-- In-place update of element `i` of a vector (identity when out of range). -/
def updateAt {β : Type} (v : List β) (i : Nat) (f : β → β) : List β :=
  match v[i]? with
  | some x => v.set i (f x)
  | none => v

/-- Entry `(r, c)` of `op(X)`, where `op(X)` is `rows × cols` and `X` is stored
row-major: untransposed as `rows × cols`, transposed as `cols × rows`. -/
def opAt {α : Type} [Zero α] (T : CBLAS_TRANSPOSE) (rows cols : Nat) (X : List α)
    (r c : Nat) : α :=
  match T with
  | .CblasNoTrans => X.getD (r * cols + c) 0
  | .CblasTrans => X.getD (c * rows + r) 0

/-- Entry `(i, j)` of `alpha * op(A) * op(B) + beta * C`. -/
def gemmEntry {α : Type} [CommRing α] (TransA TransB : CBLAS_TRANSPOSE) (M N K : Nat)
    (alpha : α) (A B : List α) (beta : α) (C : List α) (i j : Nat) : α :=
  alpha * (∑ k ∈ Finset.range K, opAt TransA M K A i k * opAt TransB K N B k j)
    + beta * C.getD (i * N + j) 0

/-- Modelled from the spec: the host dense matrix multiply of caffeine/util/blas.hpp,
`C := alpha * op(A) * op(B) + beta * C` with `op(A)` of size `M × K`, `op(B)` of
size `K × N` and `C` of size `M × N`, all row-major. The result is the new content
of `C`; elements past `M * N` are not written. -/
def caffeine_cpu_gemm {α : Type} [CommRing α] (TransA TransB : CBLAS_TRANSPOSE)
    (M N K : Nat) (alpha : α) (A B : List α) (beta : α) (C : List α) : List α :=
  (List.range C.length).map (fun idx =>
    if idx < M * N then gemmEntry TransA TransB M N K alpha A B beta C (idx / N) (idx % N)
    else C.getD idx 0)

/-- Entry `r` of `alpha * op(A) * x + beta * y` for a row-major `M × N` matrix `A`. -/
def gemvEntry {α : Type} [CommRing α] (TransA : CBLAS_TRANSPOSE) (M N : Nat)
    (alpha : α) (A x : List α) (beta : α) (y : List α) (r : Nat) : α :=
  match TransA with
  | .CblasNoTrans =>
      alpha * (∑ c ∈ Finset.range N, A.getD (r * N + c) 0 * x.getD c 0) + beta * y.getD r 0
  | .CblasTrans =>
      alpha * (∑ c ∈ Finset.range M, A.getD (c * N + r) 0 * x.getD c 0) + beta * y.getD r 0

/-- Length of the result vector of a matrix-vector product. -/
def gemvLen (TransA : CBLAS_TRANSPOSE) (M N : Nat) : Nat :=
  match TransA with
  | .CblasNoTrans => M
  | .CblasTrans => N

/-- Modelled from the spec: the host matrix-vector multiply of caffeine/util/blas.hpp,
`y := alpha * op(A) * x + beta * y` for a row-major `M × N` matrix `A`. The result
is the new content of `y`. -/
def caffeine_cpu_gemv {α : Type} [CommRing α] (TransA : CBLAS_TRANSPOSE) (M N : Nat)
    (alpha : α) (A x : List α) (beta : α) (y : List α) : List α :=
  (List.range y.length).map (fun idx =>
    if idx < gemvLen TransA M N then gemvEntry TransA M N alpha A x beta y idx
    else y.getD idx 0)

/-- Signature of a dense matrix multiply primitive. -/
abbrev GemmFn (α : Type) :=
  CBLAS_TRANSPOSE → CBLAS_TRANSPOSE → Nat → Nat → Nat → α → List α → List α → α →
    List α → List α

/-- Signature of a matrix-vector multiply primitive. -/
abbrev GemvFn (α : Type) :=
  CBLAS_TRANSPOSE → Nat → Nat → α → List α → List α → α → List α → List α

/-- The loop `for (i = 0; i < M_; ++i) bias_multiplier_data[i] = 1.` run on a
buffer. -/
def fill_ones {α : Type} [One α] (M : Nat) (buf : List α) : List α :=
  (List.range M).foldl (fun acc i => acc.set i 1) buf

/-- Translation of `InnerProductLayer<Dtype>::SetUp`. -/
def SetUp {α : Type} [CommRing α] (self : InnerProductLayer α)
    (bottom top : List (Blob α)) : Except (Abort α) (State α) :=
  if bottom.length ≠ 1 then
    .error ⟨.check_bottom_size, ⟨self, bottom, top⟩⟩
  else if top.length ≠ 1 then
    .error ⟨.check_top_size, ⟨self, bottom, top⟩⟩
  else
    match bottom[0]?, top[0]? with
    | some b0, some _ =>
      let num_output := self.layer_param_.num_output
      let s1 := { self with biasterm_ := self.layer_param_.biasterm }
      let s2 := { s1 with M_ := b0.num }
      if b0.num = 0 then
        .error ⟨.division_by_zero, ⟨s2, bottom, top⟩⟩
      else
        let s3 := { s2 with K_ := b0.count / b0.num }
        let s4 := { s3 with N_ := num_output }
        let top1 := updateAt top 0 (fun t => t.Reshape b0.num num_output 1 1)
        let s5 := { s4 with blobs_ := resize s4.blobs_ (if s4.biasterm_ then 2 else 1) }
        let s6 := { s5 with blobs_ := updateAt s5.blobs_ 0 (fun w => w.Reshape 1 1 s5.K_ s5.N_) }
        let s7 := { s6 with
          blobs_ := updateAt s6.blobs_ 0 (fun w => s6.layer_param_.weight_filler.Fill w) }
        if s7.biasterm_ then
          let s8 := { s7 with blobs_ := updateAt s7.blobs_ 1 (fun b => b.Reshape 1 1 1 s7.N_) }
          let s9 := { s8 with
            blobs_ := updateAt s8.blobs_ 1 (fun b => s8.layer_param_.bias_filler.Fill b) }
          let s10 := { s9 with
            bias_multiplier_ := some (fill_ones s9.M_ (List.replicate s9.M_ 0)) }
          .ok ⟨s10, bottom, top1⟩
        else
          .ok ⟨s7, bottom, top1⟩
    | _, _ => .error ⟨.check_bottom_size, ⟨self, bottom, top⟩⟩

/-- The layer object `SetUp` leaves behind for the single bottom blob `b`
(lemma `SetUp_ok`). -/
def SetUp_layer {α : Type} [CommRing α] (self : InnerProductLayer α) (b : Blob α) :
    InnerProductLayer α :=
  let p := self.layer_param_
  let K := b.count / b.num
  let wB := p.weight_filler.Fill (Blob.empty.Reshape 1 1 K p.num_output)
  let bB := p.bias_filler.Fill (Blob.empty.Reshape 1 1 1 p.num_output)
  { layer_param_ := p,
    blobs_ := if p.biasterm then [wB, bB] else [wB],
    biasterm_ := p.biasterm,
    M_ := b.num, K_ := K, N_ := p.num_output,
    bias_multiplier_ :=
      if p.biasterm then some (List.replicate b.num 1) else self.bias_multiplier_ }

/-- The state `SetUp` establishes, up to the contents of the arrays: the bottom
blob holds an `M × K` matrix, the top blob has shape `(M, N, 1, 1)`, the weight
blob has shape `(1, 1, K, N)` and, with a bias term, the bias blob has shape
`(1, 1, 1, N)` and the bias multiplier is `M` ones. -/
def Ready {α : Type} [CommRing α] (L : InnerProductLayer α) (b t : Blob α) : Prop :=
  b.num = L.M_ ∧ b.data.length = L.M_ * L.K_ ∧ b.diff.length = L.M_ * L.K_ ∧
  t.shape = (L.M_, L.N_, 1, 1) ∧ t.data.length = L.M_ * L.N_ ∧
  t.diff.length = L.M_ * L.N_ ∧
  (∃ w, L.blobs_[0]? = some w ∧ w.shape = (1, 1, L.K_, L.N_) ∧
    w.data.length = L.K_ * L.N_ ∧ w.diff.length = L.K_ * L.N_) ∧
  (L.biasterm_ = true →
    L.bias_multiplier_ = some (List.replicate L.M_ 1) ∧
    ∃ bias, L.blobs_[1]? = some bias ∧ bias.shape = (1, 1, 1, L.N_) ∧
      bias.data.length = L.N_ ∧ bias.diff.length = L.N_)

/-- Translation of `InnerProductLayer<Dtype>::Forward_cpu`. -/
def Forward_cpu {α : Type} [CommRing α] (self : InnerProductLayer α)
    (bottom top : List (Blob α)) : Option (State α) := do
  let b0 ← bottom[0]?
  let t0 ← top[0]?
  let w ← self.blobs_[0]?
  let bottom_data := b0.data
  let weight := w.data
  let top_data := caffeine_cpu_gemm .CblasNoTrans .CblasNoTrans self.M_ self.N_ self.K_ 1
    bottom_data weight 0 t0.data
  if self.biasterm_ then
    let bm ← self.bias_multiplier_
    let bias ← self.blobs_[1]?
    let top_data2 := caffeine_cpu_gemm .CblasNoTrans .CblasNoTrans self.M_ self.N_ 1 1
      bm bias.data 1 top_data
    pure ⟨self, bottom, top.set 0 { t0 with data := top_data2 }⟩
  else
    pure ⟨self, bottom, top.set 0 { t0 with data := top_data }⟩

/-- Translation of `InnerProductLayer<Dtype>::Backward_cpu`; the first component
is the returned loss. -/
def Backward_cpu {α : Type} [CommRing α] (self : InnerProductLayer α)
    (top : List (Blob α)) (propagate_down : Bool) (bottom : List (Blob α)) :
    Option (α × State α) := do
  let t0 ← top[0]?
  let b0 ← bottom[0]?
  let top_diff := t0.diff
  let bottom_data := b0.data
  -- Gradient with respect to weight
  let w ← self.blobs_[0]?
  let blobs1 := self.blobs_.set 0 { w with
    diff := caffeine_cpu_gemm .CblasTrans .CblasNoTrans self.K_ self.N_ self.M_ 1
      bottom_data top_diff 0 w.diff }
  let blobs2 ←
    if self.biasterm_ then do
      -- Gradient with respect to bias
      let bm ← self.bias_multiplier_
      let bias ← blobs1[1]?
      pure (blobs1.set 1 { bias with
        diff := caffeine_cpu_gemv .CblasTrans self.M_ self.N_ 1 top_diff bm 0 bias.diff })
    else pure blobs1
  let bottom2 ←
    if propagate_down then do
      -- Gradient with respect to bottom data
      let w2 ← blobs2[0]?
      pure (bottom.set 0 { b0 with
        diff := caffeine_cpu_gemm .CblasNoTrans .CblasTrans self.M_ self.K_ self.N_ 1
          top_diff w2.data 0 b0.diff })
    else pure bottom
  pure (0, ⟨{ self with blobs_ := blobs2 }, bottom2, top⟩)

/-- Translation of `InnerProductLayer<Dtype>::Forward_gpu`, over the device
primitives `caffeine_gpu_gemm` (absent from the sources, taken as a parameter). -/
def Forward_gpu {α : Type} [CommRing α] (caffeine_gpu_gemm : GemmFn α)
    (self : InnerProductLayer α) (bottom top : List (Blob α)) : Option (State α) := do
  let b0 ← bottom[0]?
  let t0 ← top[0]?
  let w ← self.blobs_[0]?
  let bottom_data := b0.data
  let weight := w.data
  let top_data := caffeine_gpu_gemm .CblasNoTrans .CblasNoTrans self.M_ self.N_ self.K_ 1
    bottom_data weight 0 t0.data
  if self.biasterm_ then
    let bm ← self.bias_multiplier_
    let bias ← self.blobs_[1]?
    let top_data2 := caffeine_gpu_gemm .CblasNoTrans .CblasNoTrans self.M_ self.N_ 1 1
      bm bias.data 1 top_data
    pure ⟨self, bottom, top.set 0 { t0 with data := top_data2 }⟩
  else
    pure ⟨self, bottom, top.set 0 { t0 with data := top_data }⟩

/-- Translation of `InnerProductLayer<Dtype>::Backward_gpu`, over the device
primitives `caffeine_gpu_gemm` and `caffeine_gpu_gemv` (parameters). -/
def Backward_gpu {α : Type} [CommRing α] (caffeine_gpu_gemm : GemmFn α)
    (caffeine_gpu_gemv : GemvFn α) (self : InnerProductLayer α)
    (top : List (Blob α)) (propagate_down : Bool) (bottom : List (Blob α)) :
    Option (α × State α) := do
  let t0 ← top[0]?
  let b0 ← bottom[0]?
  let top_diff := t0.diff
  let bottom_data := b0.data
  -- Gradient with respect to weight
  let w ← self.blobs_[0]?
  let blobs1 := self.blobs_.set 0 { w with
    diff := caffeine_gpu_gemm .CblasTrans .CblasNoTrans self.K_ self.N_ self.M_ 1
      bottom_data top_diff 0 w.diff }
  let blobs2 ←
    if self.biasterm_ then do
      -- Gradient with respect to bias
      let bm ← self.bias_multiplier_
      let bias ← blobs1[1]?
      pure (blobs1.set 1 { bias with
        diff := caffeine_gpu_gemv .CblasTrans self.M_ self.N_ 1 top_diff bm 0 bias.diff })
    else pure blobs1
  let bottom2 ←
    if propagate_down then do
      -- Gradient with respect to bottom data
      let w2 ← blobs2[0]?
      pure (bottom.set 0 { b0 with
        diff := caffeine_gpu_gemm .CblasNoTrans .CblasTrans self.M_ self.K_ self.N_ 1
          top_diff w2.data 0 b0.diff })
    else pure bottom
  pure (0, ⟨{ self with blobs_ := blobs2 }, bottom2, top⟩)

/-- The contract of a dense matrix multiply primitive: on buffers large enough
for the stated dimensions it keeps the length of `C`, writes
`alpha * op(A) * op(B) + beta * C` to the `M × N` leading entries and leaves the
elements after them unchanged. -/
def GemmContract {α : Type} [CommRing α] (g : GemmFn α) : Prop :=
  ∀ (TA TB : CBLAS_TRANSPOSE) (M N K : Nat) (alpha : α) (A B : List α) (beta : α)
    (C : List α), M * K ≤ A.length → K * N ≤ B.length → M * N ≤ C.length →
    (g TA TB M N K alpha A B beta C).length = C.length ∧
    (∀ i, i < M → ∀ j, j < N →
      (g TA TB M N K alpha A B beta C).getD (i * N + j) 0 =
        alpha * (∑ k ∈ Finset.range K, opAt TA M K A i k * opAt TB K N B k j)
          + beta * C.getD (i * N + j) 0) ∧
    (∀ idx, M * N ≤ idx → (g TA TB M N K alpha A B beta C).getD idx 0 = C.getD idx 0)

/-- The contract of a matrix-vector multiply primitive, for a row-major `M × N`
matrix `A`: it keeps the length of `y`, writes `alpha * op(A) * x + beta * y` to
the leading entries and leaves the elements after them unchanged. -/
def GemvContract {α : Type} [CommRing α] (v : GemvFn α) : Prop :=
  ∀ (TA : CBLAS_TRANSPOSE) (M N : Nat) (alpha : α) (A x : List α) (beta : α)
    (y : List α), M * N ≤ A.length → gemvLen TA N M ≤ x.length →
    gemvLen TA M N ≤ y.length →
    (v TA M N alpha A x beta y).length = y.length ∧
    (∀ r, r < gemvLen TA M N →
      (v TA M N alpha A x beta y).getD r 0 = gemvEntry TA M N alpha A x beta y r) ∧
    (∀ idx, gemvLen TA M N ≤ idx → (v TA M N alpha A x beta y).getD idx 0 = y.getD idx 0)

/-- A second implementation of the matrix multiply: every entry is accumulated by
a running sum over `k`, as one device thread per entry would. -/
def loop_gemm {α : Type} [CommRing α] : GemmFn α :=
  fun TransA TransB M N K alpha A B beta C =>
    (List.range C.length).map (fun idx =>
      if idx < M * N then
        alpha * (List.range K).foldl
          (fun acc k => acc + opAt TransA M K A (idx / N) k * opAt TransB K N B k (idx % N)) 0
          + beta * C.getD idx 0
      else C.getD idx 0)

/-- A second implementation of the matrix-vector multiply, by a running sum. -/
def loop_gemv {α : Type} [CommRing α] : GemvFn α :=
  fun TransA M N alpha A x beta y =>
    (List.range y.length).map (fun idx =>
      if idx < gemvLen TransA M N then
        alpha * (List.range (gemvLen TransA N M)).foldl
          (fun acc c =>
            acc + (match TransA with
              | .CblasNoTrans => A.getD (idx * N + c) 0
              | .CblasTrans => A.getD (c * N + idx) 0) * x.getD c 0) 0
          + beta * y.getD idx 0
      else y.getD idx 0)

/-- The layer with `eps` added to the weight value at flat offset `idx`. -/
def perturb_weight {α : Type} [CommRing α] (L : InnerProductLayer α) (idx : Nat)
    (eps : α) : InnerProductLayer α :=
  { L with blobs_ := updateAt L.blobs_ 0 (fun w =>
      { w with data := w.data.set idx (w.data.getD idx 0 + eps) }) }

/-- The scalar `∑ i j, G[i][j] * Forward(bottom, W, bias)[i][j]`, with `G` the
gradient array of the top blob and `Forward` the value array `Forward_cpu`
leaves in it (`0` if `Forward_cpu` does not return). -/
def loss {α : Type} [CommRing α] (L : InnerProductLayer α) (b t : Blob α) : α :=
  match Forward_cpu L [b] [t] with
  | some s =>
    match s.top[0]? with
    | some t' =>
      ∑ i ∈ Finset.range L.M_, ∑ j ∈ Finset.range L.N_,
        t.diff.getD (i * L.N_ + j) 0 * t'.data.getD (i * L.N_ + j) 0
    | none => 0
  | none => 0

/-- The members `CrossEntropyLayer<Dtype>` declares in
caffe/layers/cross_entropy.hpp (namespace `caffe`); the members of the base class
`Layer<Dtype>` are not declared there. -/
structure CrossEntropyLayer (α : Type) where
  outer_num_ : Int
  inner_num_ : Int

/-- Translation of `CrossEntropyLayer::type`. -/
def CrossEntropyLayer.type {α : Type} (_self : CrossEntropyLayer α) : String :=
  "CrossEntropy"

/-- Translation of `CrossEntropyLayer::ExactNumBottomBlobs`. -/
def CrossEntropyLayer.ExactNumBottomBlobs {α : Type} (_self : CrossEntropyLayer α) : Int :=
  2

/-- Translation of `CrossEntropyLayer::ExactNumTopBlobs`. -/
def CrossEntropyLayer.ExactNumTopBlobs {α : Type} (_self : CrossEntropyLayer α) : Int :=
  1

/-- Example configuration: two outputs, bias enabled, constant fillers writing a
`3 × 2` weight matrix and a bias row of length two. -/
def ex_param : LayerParameter ℤ :=
  { num_output := 2, biasterm := true,
    weight_filler := fun _ i => [1, 2, 3, 4, 5, 6].getD i 0,
    bias_filler := fun _ i => [10, 20].getD i 0 }

/-- Example layer object before `SetUp`. -/
def ex_layer : InnerProductLayer ℤ :=
  { layer_param_ := ex_param, blobs_ := [], biasterm_ := false,
    M_ := 0, K_ := 0, N_ := 0, bias_multiplier_ := none }

/-- Example input: two samples of three values. -/
def ex_bottom : Blob ℤ :=
  { num := 2, channels := 3, height := 1, width := 1,
    data := [1, 0, 2, 0, 1, 1], diff := [7, 7, 7, 7, 7, 7] }

/-- Example input with an empty batch: no sample of three values. -/
def ex_bottom_empty : Blob ℤ :=
  { num := 0, channels := 3, height := 1, width := 1, data := [], diff := [] }

/-- Example output blob holding stale content of the right size. -/
def ex_top : Blob ℤ :=
  { num := 2, channels := 2, height := 1, width := 1,
    data := [9, 9, 9, 9], diff := [1, 2, 3, 4] }

/-- Example layer object after `SetUp`, with stale gradient content. -/
def ex_ready : InnerProductLayer ℤ :=
  { layer_param_ := ex_param,
    blobs_ := [
      { num := 1, channels := 1, height := 3, width := 2,
        data := [1, 2, 3, 4, 5, 6], diff := [8, 8, 8, 8, 8, 8] },
      { num := 1, channels := 1, height := 1, width := 2,
        data := [10, 20], diff := [5, 5] }],
    biasterm_ := true, M_ := 2, K_ := 3, N_ := 2,
    bias_multiplier_ := some [1, 1] }

/-- The state `SetUp` returns on the example input. -/
def ex_after_SetUp : State ℤ :=
  { layer :=
      { layer_param_ := ex_param,
        blobs_ := [
          { num := 1, channels := 1, height := 3, width := 2,
            data := [1, 2, 3, 4, 5, 6], diff := [0, 0, 0, 0, 0, 0] },
          { num := 1, channels := 1, height := 1, width := 2,
            data := [10, 20], diff := [0, 0] }],
        biasterm_ := true, M_ := 2, K_ := 3, N_ := 2,
        bias_multiplier_ := some [1, 1] },
    bottom := [ex_bottom],
    top := [{ num := 2, channels := 2, height := 1, width := 1,
              data := [0, 0, 0, 0], diff := [0, 0, 0, 0] }] }

/-- Example layer object after `SetUp` without a bias term. -/
def ex_ready_nobias : InnerProductLayer ℤ :=
  { layer_param_ := { ex_param with biasterm := false },
    blobs_ := [
      { num := 1, channels := 1, height := 3, width := 2,
        data := [1, 2, 3, 4, 5, 6], diff := [8, 8, 8, 8, 8, 8] }],
    biasterm_ := false, M_ := 2, K_ := 3, N_ := 2,
    bias_multiplier_ := none }


/-- The result of `Backward_cpu` on the example state without propagation. -/
def ex_backward_result : ℤ × State ℤ :=
  (0, { layer := { ex_ready with blobs_ := [
          { num := 1, channels := 1, height := 3, width := 2,
            data := [1, 2, 3, 4, 5, 6], diff := [1, 2, 3, 4, 5, 8] },
          { num := 1, channels := 1, height := 1, width := 2,
            data := [10, 20], diff := [4, 6] }] },
        bottom := [ex_bottom], top := [ex_top] })

/-- Example over the rationals: the layer object after `SetUp`. -/
def ex_ready_rat : InnerProductLayer ℚ :=
  { layer_param_ :=
      { num_output := 2, biasterm := true,
        weight_filler := fun _ i => [1, 2, 3, 4, 5, 6].getD i 0,
        bias_filler := fun _ i => [10, 20].getD i 0 },
    blobs_ := [
      { num := 1, channels := 1, height := 3, width := 2,
        data := [1, 2, 3, 4, 5, 6], diff := [8, 8, 8, 8, 8, 8] },
      { num := 1, channels := 1, height := 1, width := 2,
        data := [10, 20], diff := [5, 5] }],
    biasterm_ := true, M_ := 2, K_ := 3, N_ := 2,
    bias_multiplier_ := some [1, 1] }

/-- Example over the rationals: two samples of three values. -/
def ex_bottom_rat : Blob ℚ :=
  { num := 2, channels := 3, height := 1, width := 1,
    data := [1, 0, 2, 0, 1, 1], diff := [7, 7, 7, 7, 7, 7] }

/-- Example over the rationals: the top blob with its gradient. -/
def ex_top_rat : Blob ℚ :=
  { num := 2, channels := 2, height := 1, width := 1,
    data := [9, 9, 9, 9], diff := [1, 2, 3, 4] }

/-- The state `Forward_cpu` returns on the example state. -/
def ex_forward_result : State ℤ :=
  { layer := ex_ready, bottom := [ex_bottom],
    top := [{ num := 2, channels := 2, height := 1, width := 1,
              data := [21, 34, 18, 30], diff := [1, 2, 3, 4] }] }

/-- The result of `Backward_cpu` on the example state with propagation. -/
def ex_backward_result_down : ℤ × State ℤ :=
  (0, { layer := { ex_ready with blobs_ := [
          { num := 1, channels := 1, height := 3, width := 2,
            data := [1, 2, 3, 4, 5, 6], diff := [1, 2, 3, 4, 5, 8] },
          { num := 1, channels := 1, height := 1, width := 2,
            data := [10, 20], diff := [4, 6] }] },
        bottom := [{ num := 2, channels := 3, height := 1, width := 1,
                     data := [1, 0, 2, 0, 1, 1], diff := [5, 11, 17, 11, 25, 39] }],
        top := [ex_top] })

/-! ## Auxiliary lemmas -/

theorem idx_lt {M N i j : Nat} (hi : i < M) (hj : j < N) : i * N + j < M * N := by
  calc i * N + j < i * N + N := by omega
    _ = (i + 1) * N := by ring
    _ ≤ M * N := Nat.mul_le_mul_right N hi

theorem idx_div {N i j : Nat} (hj : j < N) : (i * N + j) / N = i := by
  have hN : 0 < N := by omega
  rw [Nat.add_comm, Nat.add_mul_div_right _ _ hN, Nat.div_eq_of_lt hj, Nat.zero_add]

theorem idx_mod {N i j : Nat} (hj : j < N) : (i * N + j) % N = j := by
  rw [Nat.add_comm, Nat.add_mul_mod_self_right, Nat.mod_eq_of_lt hj]

theorem getD_map_range {α : Type} [CommRing α] (n : Nat) (f : Nat → α) (idx : Nat)
    (h : idx < n) : ((List.range n).map f).getD idx 0 = f idx := by
  simp [List.getD_eq_getElem?_getD, h]

theorem getD_replicate_one {α : Type} [CommRing α] (n i : Nat) (h : i < n) :
    (List.replicate n (1 : α)).getD i 0 = 1 := by
  simp [List.getD_eq_getElem?_getD, List.getElem?_replicate, h]

theorem resize_length {α : Type} (v : List (Blob α)) (n : Nat) :
    (resize v n).length = n := by
  simp [resize]; omega

theorem updateAt_one_zero {β : Type} (x : β) (f : β → β) :
    updateAt [x] 0 f = [f x] := by
  simp [updateAt]

theorem updateAt_two_zero {β : Type} (x y : β) (f : β → β) :
    updateAt [x, y] 0 f = [f x, y] := by
  simp [updateAt]

theorem updateAt_two_one {β : Type} (x y : β) (f : β → β) :
    updateAt [x, y] 1 f = [x, f y] := by
  simp [updateAt]

theorem list_len_one {β : Type} (v : List β) (h : v.length = 1) : ∃ x, v = [x] := by
  match v, h with
  | [x], _ => exact ⟨x, rfl⟩

theorem list_len_two {β : Type} (v : List β) (h : v.length = 2) : ∃ x y, v = [x, y] := by
  match v, h with
  | [x, y], _ => exact ⟨x, y, rfl⟩

/-- The initialisation loop of the bias multiplier overwrites the first `n`
elements with one. -/
theorem fill_ones_spec {α : Type} [CommRing α] (n : Nat) : ∀ (buf : List α),
    n ≤ buf.length → fill_ones n buf = List.replicate n 1 ++ buf.drop n := by
  induction n with
  | zero => intro buf _; simp [fill_ones]
  | succ n ih =>
    intro buf h
    have ih2 := ih buf (by omega)
    unfold fill_ones at ih2 ⊢
    rw [List.range_succ, List.foldl_append, ih2]
    simp only [List.foldl_cons, List.foldl_nil]
    apply List.ext_getElem?
    intro i
    rw [List.getElem?_set]
    simp only [List.length_append, List.length_replicate, List.length_drop]
    rcases Nat.lt_trichotomy i n with hlt | heq | hgt
    · have h0 : ¬ n = i := by omega
      have h1 : i < n + 1 := by omega
      simp [h0, List.getElem?_append, hlt, h1, List.getElem?_replicate]
    · subst heq
      have h1 : i < buf.length := by omega
      simp [List.getElem?_append, List.getElem?_replicate, h1]
    · have h0 : ¬ n = i := by omega
      have h1 : ¬ i < n := by omega
      have h2 : ¬ i < n + 1 := by omega
      simp [h0, h1, h2, List.getElem?_append, List.getElem?_replicate]
      congr 1; omega

theorem fill_ones_replicate {α : Type} [CommRing α] (n : Nat) :
    fill_ones n (List.replicate n (0 : α)) = List.replicate n 1 := by
  rw [fill_ones_spec n _ (by simp)]
  simp

/-! ## The BLAS primitives -/

theorem gemm_length {α : Type} [CommRing α] (TA TB : CBLAS_TRANSPOSE) (M N K : Nat)
    (alpha : α) (A B : List α) (beta : α) (C : List α) :
    (caffeine_cpu_gemm TA TB M N K alpha A B beta C).length = C.length := by
  simp [caffeine_cpu_gemm]

theorem gemm_getD {α : Type} [CommRing α] (TA TB : CBLAS_TRANSPOSE) (M N K : Nat)
    (alpha : α) (A B : List α) (beta : α) (C : List α) (i j : Nat) (hi : i < M)
    (hj : j < N) (hC : M * N ≤ C.length) :
    (caffeine_cpu_gemm TA TB M N K alpha A B beta C).getD (i * N + j) 0
      = gemmEntry TA TB M N K alpha A B beta C i j := by
  have h1 := idx_lt hi hj
  unfold caffeine_cpu_gemm
  rw [getD_map_range _ _ _ (by omega), if_pos h1, idx_div hj, idx_mod hj]

theorem gemv_length {α : Type} [CommRing α] (TA : CBLAS_TRANSPOSE) (M N : Nat)
    (alpha : α) (A x : List α) (beta : α) (y : List α) :
    (caffeine_cpu_gemv TA M N alpha A x beta y).length = y.length := by
  simp [caffeine_cpu_gemv]

theorem gemv_getD {α : Type} [CommRing α] (TA : CBLAS_TRANSPOSE) (M N : Nat)
    (alpha : α) (A x : List α) (beta : α) (y : List α) (r : Nat)
    (hr : r < gemvLen TA M N) (hy : gemvLen TA M N ≤ y.length) :
    (caffeine_cpu_gemv TA M N alpha A x beta y).getD r 0
      = gemvEntry TA M N alpha A x beta y r := by
  unfold caffeine_cpu_gemv
  rw [getD_map_range _ _ _ (by omega), if_pos hr]

/-! ## SetUp -/

theorem SetUp_ok {α : Type} [CommRing α] (self : InnerProductLayer α) (b t : Blob α)
    (h : b.num ≠ 0) :
    SetUp self [b] [t] = .ok ⟨SetUp_layer self b, [b],
      [Blob.empty.Reshape b.num self.layer_param_.num_output 1 1]⟩ := by
  unfold SetUp SetUp_layer
  simp only [List.length_singleton, ne_eq, not_true_eq_false, if_false, h,
    List.getElem?_cons_zero, updateAt_one_zero]
  cases hb : self.layer_param_.biasterm
  · obtain ⟨x, hx⟩ := list_len_one _ (resize_length self.blobs_ 1)
    simp [hx, updateAt_one_zero, Blob.Reshape]
  · obtain ⟨x, y, hx⟩ := list_len_two _ (resize_length self.blobs_ 2)
    simp [hx, updateAt_two_zero, updateAt_two_one, Blob.Reshape, fill_ones_replicate]

theorem SetUp_div_zero {α : Type} [CommRing α] (self : InnerProductLayer α)
    (b t : Blob α) (h : b.num = 0) :
    SetUp self [b] [t] = .error ⟨.division_by_zero,
      ⟨{ self with biasterm_ := self.layer_param_.biasterm, M_ := b.num }, [b], [t]⟩⟩ := by
  unfold SetUp
  simp [h]

theorem SetUp_bad_bottom {α : Type} [CommRing α] (self : InnerProductLayer α)
    (bottom top : List (Blob α)) (h : bottom.length ≠ 1) :
    SetUp self bottom top = .error ⟨.check_bottom_size, ⟨self, bottom, top⟩⟩ := by
  unfold SetUp
  simp [h]

theorem SetUp_bad_top {α : Type} [CommRing α] (self : InnerProductLayer α)
    (bottom top : List (Blob α)) (hb : bottom.length = 1) (h : top.length ≠ 1) :
    SetUp self bottom top = .error ⟨.check_top_size, ⟨self, bottom, top⟩⟩ := by
  unfold SetUp
  simp [h, hb]

theorem num_mul_count_div {α : Type} (b : Blob α) : b.num * (b.count / b.num) = b.count := by
  apply Nat.mul_div_cancel'
  unfold Blob.count
  exact ⟨b.channels * b.height * b.width, by ring⟩

/-- What `SetUp` leaves behind is a `Ready` state. -/
theorem SetUp_Ready {α : Type} [CommRing α] (self : InnerProductLayer α) (b t : Blob α)
    (s : State α) (hwf : b.wf) (hs : SetUp self [b] [t] = .ok s) :
    ∃ t1, s.bottom = [b] ∧ s.top = [t1] ∧ Ready s.layer b t1 := by
  by_cases h0 : b.num = 0
  · rw [SetUp_div_zero self b t h0] at hs
    cases hs
  · rw [SetUp_ok self b t h0] at hs
    injection hs with hs
    subst hs
    refine ⟨_, rfl, rfl, ?_⟩
    have hmk := num_mul_count_div b
    obtain ⟨hd, hg⟩ := hwf
    cases hb : self.layer_param_.biasterm <;>
      simp [Ready, SetUp_layer, hb, Blob.Reshape, Blob.shape, Filler.Fill, Blob.empty,
        Blob.count, hd, hg] <;> simp [Blob.count] at hmk <;> simp [hmk]

/-! ## Forward -/

theorem Forward_cpu_nobias {α : Type} [CommRing α] (L : InnerProductLayer α)
    (b t w : Blob α) (hw : L.blobs_[0]? = some w) (hbt : L.biasterm_ = false) :
    Forward_cpu L [b] [t] = some (State.mk L [b] [{ t with
      data := caffeine_cpu_gemm CBLAS_TRANSPOSE.CblasNoTrans CBLAS_TRANSPOSE.CblasNoTrans
        L.M_ L.N_ L.K_ 1 b.data w.data 0 t.data }]) := by
  simp [Forward_cpu, hw, hbt]

theorem Forward_cpu_bias {α : Type} [CommRing α] (L : InnerProductLayer α)
    (b t w bias : Blob α) (bm : List α)
    (hw : L.blobs_[0]? = some w) (hbt : L.biasterm_ = true)
    (hbm : L.bias_multiplier_ = some bm) (hb1 : L.blobs_[1]? = some bias) :
    Forward_cpu L [b] [t] = some (State.mk L [b] [{ t with
      data := caffeine_cpu_gemm CBLAS_TRANSPOSE.CblasNoTrans CBLAS_TRANSPOSE.CblasNoTrans
        L.M_ L.N_ 1 1 bm bias.data 1
        (caffeine_cpu_gemm CBLAS_TRANSPOSE.CblasNoTrans CBLAS_TRANSPOSE.CblasNoTrans
          L.M_ L.N_ L.K_ 1 b.data w.data 0 t.data) }]) := by
  simp [Forward_cpu, hw, hbt, hbm, hb1]

/-- In a `Ready` state `Forward_cpu` returns, touches only the value array of
the top blob, and writes the dense product plus the bias row. -/
theorem Forward_cpu_spec {α : Type} [CommRing α] (L : InnerProductLayer α)
    (b t : Blob α) (h : Ready L b t) :
    ∃ w s' t', L.blobs_[0]? = some w ∧ Forward_cpu L [b] [t] = some s' ∧
      s'.layer = L ∧ s'.bottom = [b] ∧ s'.top = [t'] ∧
      t'.shape = t.shape ∧ t'.diff = t.diff ∧ t'.data.length = L.M_ * L.N_ ∧
      ∀ i, i < L.M_ → ∀ j, j < L.N_ →
        t'.data.getD (i * L.N_ + j) 0 =
          (∑ k ∈ Finset.range L.K_,
            b.data.getD (i * L.K_ + k) 0 * w.data.getD (k * L.N_ + j) 0)
          + (if L.biasterm_ = true then (L.blobs_.getD 1 Blob.empty).data.getD j 0
              else 0) := by
  obtain ⟨_, _, _, _, htd, _, ⟨w, hw, _, _, _⟩, hbias⟩ := h
  have hC : L.M_ * L.N_ ≤ t.data.length := by omega
  cases hbt : L.biasterm_
  · refine ⟨w, _, _, hw, Forward_cpu_nobias L b t w hw hbt, rfl, rfl, rfl, rfl, rfl, ?_, ?_⟩
    · simp [gemm_length, htd]
    · intro i hi j hj
      dsimp only
      rw [gemm_getD _ _ _ _ _ _ _ _ _ _ i j hi hj hC]
      simp [gemmEntry, opAt]
  · obtain ⟨hbm, bias, hb1, _, _, _⟩ := hbias hbt
    refine ⟨w, _, _, hw, Forward_cpu_bias L b t w bias _ hw hbt hbm hb1,
      rfl, rfl, rfl, rfl, rfl, ?_, ?_⟩
    · simp [gemm_length, htd]
    · intro i hi j hj
      have hg : (L.blobs_.getD 1 Blob.empty) = bias := by
        simp [List.getD_eq_getElem?_getD, hb1]
      dsimp only
      rw [gemm_getD _ _ _ _ _ _ _ _ _ _ i j hi hj (by rw [gemm_length]; exact hC), hg]
      unfold gemmEntry
      rw [gemm_getD _ _ _ _ _ _ _ _ _ _ i j hi hj hC]
      simp only [gemmEntry, opAt, Finset.sum_range_one, Nat.mul_one, Nat.add_zero,
        Nat.zero_mul, Nat.zero_add, getD_replicate_one _ _ hi, if_true]
      ring

/-! ## Backward: closed forms -/

theorem Backward_cpu_frame_bottom {α : Type} [CommRing α] (L : InnerProductLayer α)
    (top bottom : List (Blob α)) (r : α × State α)
    (h : Backward_cpu L top false bottom = some r) : r.2.bottom = bottom ∧ r.2.top = top ∧ r.1 = 0 := by
  unfold Backward_cpu at h
  cases h1 : top[0]? with
  | none => simp [h1] at h
  | some t0 =>
    cases h2 : bottom[0]? with
    | none => simp [h1, h2] at h
    | some b0 =>
      cases h3 : L.blobs_[0]? with
      | none => simp [h1, h2, h3] at h
      | some w =>
        cases h4 : L.biasterm_ with
        | false =>
          simp [h1, h2, h3, h4] at h
          subst h
          simp
        | true =>
          cases h5 : L.bias_multiplier_ with
          | none => simp [h1, h2, h3, h4, h5] at h
          | some bm =>
            cases h6 : L.blobs_[1]? with
            | none => simp [h1, h2, h3, h4, h5, h6] at h
            | some bias =>
              simp [h1, h2, h3, h4, h5, h6] at h
              subst h
              simp

theorem Backward_gpu_frame_bottom {α : Type} [CommRing α] (g : GemmFn α) (v : GemvFn α)
    (L : InnerProductLayer α)
    (top bottom : List (Blob α)) (r : α × State α)
    (h : Backward_gpu g v L top false bottom = some r) : r.2.bottom = bottom ∧ r.2.top = top ∧ r.1 = 0 := by
  unfold Backward_gpu at h
  cases h1 : top[0]? with
  | none => simp [h1] at h
  | some t0 =>
    cases h2 : bottom[0]? with
    | none => simp [h1, h2] at h
    | some b0 =>
      cases h3 : L.blobs_[0]? with
      | none => simp [h1, h2, h3] at h
      | some w =>
        cases h4 : L.biasterm_ with
        | false =>
          simp [h1, h2, h3, h4] at h
          subst h
          simp
        | true =>
          cases h5 : L.bias_multiplier_ with
          | none => simp [h1, h2, h3, h4, h5] at h
          | some bm =>
            cases h6 : L.blobs_[1]? with
            | none => simp [h1, h2, h3, h4, h5, h6] at h
            | some bias =>
              simp [h1, h2, h3, h4, h5, h6] at h
              subst h
              simp

theorem blobs_cons {β : Type} (l : List β) (w : β) (h : l[0]? = some w) :
    ∃ rest, l = w :: rest := by
  cases l with
  | nil => simp at h
  | cons x xs => simp at h; exact ⟨xs, by rw [h]⟩

theorem blobs_cons2 {β : Type} (l : List β) (w bias : β) (h : l[0]? = some w)
    (h1 : l[1]? = some bias) : ∃ rest, l = w :: bias :: rest := by
  obtain ⟨rest, rfl⟩ := blobs_cons l w h
  cases rest with
  | nil => simp at h1
  | cons y ys => simp at h1; exact ⟨ys, by rw [h1]⟩

/-- The result of `Backward_cpu` in closed form, without a bias term. -/
theorem Backward_cpu_nobias {α : Type} [CommRing α] (L : InnerProductLayer α)
    (b t w : Blob α) (rest : List (Blob α)) (pd : Bool)
    (hw : L.blobs_ = w :: rest) (hbt : L.biasterm_ = false) :
    Backward_cpu L [t] pd [b] = some (0, State.mk
      { L with blobs_ := { w with
          diff := caffeine_cpu_gemm CBLAS_TRANSPOSE.CblasTrans CBLAS_TRANSPOSE.CblasNoTrans
            L.K_ L.N_ L.M_ 1 b.data t.diff 0 w.diff } :: rest }
      (if pd = true then [{ b with
          diff := caffeine_cpu_gemm CBLAS_TRANSPOSE.CblasNoTrans CBLAS_TRANSPOSE.CblasTrans
            L.M_ L.K_ L.N_ 1 t.diff w.data 0 b.diff }] else [b])
      [t]) := by
  cases pd <;> simp [Backward_cpu, hw, hbt]

/-- The result of `Backward_cpu` in closed form, with a bias term. -/
theorem Backward_cpu_bias {α : Type} [CommRing α] (L : InnerProductLayer α)
    (b t w bias : Blob α) (rest : List (Blob α)) (bm : List α) (pd : Bool)
    (hw : L.blobs_ = w :: bias :: rest) (hbt : L.biasterm_ = true)
    (hbm : L.bias_multiplier_ = some bm) :
    Backward_cpu L [t] pd [b] = some (0, State.mk
      { L with blobs_ := { w with
          diff := caffeine_cpu_gemm CBLAS_TRANSPOSE.CblasTrans CBLAS_TRANSPOSE.CblasNoTrans
            L.K_ L.N_ L.M_ 1 b.data t.diff 0 w.diff } ::
        { bias with
          diff := caffeine_cpu_gemv CBLAS_TRANSPOSE.CblasTrans L.M_ L.N_ 1 t.diff bm 0
            bias.diff } :: rest }
      (if pd = true then [{ b with
          diff := caffeine_cpu_gemm CBLAS_TRANSPOSE.CblasNoTrans CBLAS_TRANSPOSE.CblasTrans
            L.M_ L.K_ L.N_ 1 t.diff w.data 0 b.diff }] else [b])
      [t]) := by
  cases pd <;> simp [Backward_cpu, hw, hbt, hbm]

/-- Entry `(k, j)` of the weight-gradient product `bottomᵗ × top_diff`. -/
theorem gemmEntry_weight_grad {α : Type} [CommRing α] (M K N : Nat) (A B C : List α)
    (k j : Nat) :
    gemmEntry CBLAS_TRANSPOSE.CblasTrans CBLAS_TRANSPOSE.CblasNoTrans K N M 1 A B 0 C k j
      = ∑ i ∈ Finset.range M, A.getD (i * K + k) 0 * B.getD (i * N + j) 0 := by
  simp [gemmEntry, opAt]

/-- Entry `(i, k)` of the input-gradient product `top_diff × weightᵗ`. -/
theorem gemmEntry_bottom_grad {α : Type} [CommRing α] (M K N : Nat) (A B C : List α)
    (i k : Nat) :
    gemmEntry CBLAS_TRANSPOSE.CblasNoTrans CBLAS_TRANSPOSE.CblasTrans M K N 1 A B 0 C i k
      = ∑ j ∈ Finset.range N, A.getD (i * N + j) 0 * B.getD (k * N + j) 0 := by
  simp [gemmEntry, opAt]

/-- Entry `j` of `top_diffᵗ × ones`. -/
theorem gemvEntry_bias_grad {α : Type} [CommRing α] (M N : Nat) (A y : List α) (j : Nat) :
    gemvEntry CBLAS_TRANSPOSE.CblasTrans M N 1 A (List.replicate M 1) 0 y j
      = ∑ i ∈ Finset.range M, A.getD (i * N + j) 0 := by
  simp only [gemvEntry, one_mul, zero_mul, add_zero]
  apply Finset.sum_congr rfl
  intro i hi
  rw [getD_replicate_one _ _ (Finset.mem_range.mp hi), mul_one]

/-- In a `Ready` state `Backward_cpu` returns zero and a state described array
by array. -/
theorem Backward_cpu_spec {α : Type} [CommRing α] (L : InnerProductLayer α)
    (b t : Blob α) (pd : Bool) (h : Ready L b t) :
    ∃ w s', L.blobs_[0]? = some w ∧ Backward_cpu L [t] pd [b] = some (0, s') ∧
      s'.top = [t] ∧
      s'.layer = { L with blobs_ := s'.layer.blobs_ } ∧
      s'.layer.blobs_[0]? = some { w with
        diff := caffeine_cpu_gemm CBLAS_TRANSPOSE.CblasTrans CBLAS_TRANSPOSE.CblasNoTrans
          L.K_ L.N_ L.M_ 1 b.data t.diff 0 w.diff } ∧
      (L.biasterm_ = true → ∃ bias, L.blobs_[1]? = some bias ∧
        s'.layer.blobs_[1]? = some { bias with
          diff := caffeine_cpu_gemv CBLAS_TRANSPOSE.CblasTrans L.M_ L.N_ 1 t.diff
            (List.replicate L.M_ 1) 0 bias.diff }) ∧
      (L.biasterm_ = false → s'.layer.blobs_.drop 1 = L.blobs_.drop 1) ∧
      s'.layer.blobs_.drop 2 = L.blobs_.drop 2 ∧
      s'.bottom = (if pd = true then [{ b with
          diff := caffeine_cpu_gemm CBLAS_TRANSPOSE.CblasNoTrans CBLAS_TRANSPOSE.CblasTrans
            L.M_ L.K_ L.N_ 1 t.diff w.data 0 b.diff }] else [b]) := by
  obtain ⟨_, _, _, _, _, _, ⟨w, hw, _, _, _⟩, hbias⟩ := h
  by_cases hbt : L.biasterm_ = true
  · obtain ⟨hbm, bias, hb1, _, _, _⟩ := hbias hbt
    obtain ⟨rest, hl⟩ := blobs_cons2 _ _ _ hw hb1
    refine ⟨w, _, hw, Backward_cpu_bias L b t w bias rest _ pd hl hbt hbm, rfl, rfl,
      ?_, ?_, ?_, ?_, rfl⟩
    · simp
    · intro _; exact ⟨bias, hb1, by simp⟩
    · intro hc; rw [hbt] at hc; cases hc
    · simp [hl]
  · have hbf : L.biasterm_ = false := by simpa using hbt
    obtain ⟨rest, hl⟩ := blobs_cons _ _ hw
    refine ⟨w, _, hw, Backward_cpu_nobias L b t w rest pd hl hbf, rfl, rfl, ?_, ?_, ?_, ?_, rfl⟩
    · simp
    · intro hc; exact absurd hc hbt
    · intro _; simp [hl]
    · simp [hl]

/-! ## Contracts of the primitives and the device paths -/

theorem list_ext_getD {α : Type} [CommRing α] (l1 l2 : List α) (hl : l1.length = l2.length)
    (h : ∀ i, i < l1.length → l1.getD i 0 = l2.getD i 0) : l1 = l2 := by
  apply List.ext_getElem hl
  intro i h1 h2
  have := h i h1
  rwa [List.getD_eq_getElem _ _ h1, List.getD_eq_getElem _ _ h2] at this

theorem getD_map_range_ge {α : Type} [CommRing α] (n : Nat) (f : Nat → α) (idx : Nat)
    (h : n ≤ idx) : ((List.range n).map f).getD idx 0 = 0 := by
  rw [List.getD_eq_getElem?_getD, List.getElem?_eq_none (by simpa using h)]
  rfl

theorem getD_ge {α : Type} [CommRing α] (l : List α) (idx : Nat)
    (h : l.length ≤ idx) : l.getD idx 0 = 0 := by
  rw [List.getD_eq_getElem?_getD, List.getElem?_eq_none h]
  rfl

theorem foldl_add_eq_sum {α : Type} [CommRing α] (f : Nat → α) (n : Nat) :
    (List.range n).foldl (fun acc k => acc + f k) 0 = ∑ k ∈ Finset.range n, f k := by
  induction n with
  | zero => simp
  | succ n ih => rw [List.range_succ, List.foldl_append, ih, Finset.sum_range_succ]; simp

theorem idx_decomp {M N idx : Nat} (h : idx < M * N) :
    idx / N < M ∧ idx % N < N ∧ idx / N * N + idx % N = idx := by
  have hN : 0 < N := by
    rcases Nat.eq_zero_or_pos N with h0 | h0
    · subst h0; simp at h
    · exact h0
  refine ⟨?_, Nat.mod_lt _ hN, ?_⟩
  · apply Nat.div_lt_of_lt_mul
    rwa [Nat.mul_comm]
  · rw [Nat.mul_comm]; exact Nat.div_add_mod idx N

theorem cpu_gemm_contract {α : Type} [CommRing α] :
    GemmContract (caffeine_cpu_gemm : GemmFn α) := by
  intro TA TB M N K alpha A B beta C _ _ hC
  refine ⟨gemm_length _ _ _ _ _ _ _ _ _ _, ?_, ?_⟩
  · intro i hi j hj
    rw [gemm_getD _ _ _ _ _ _ _ _ _ _ i j hi hj hC]
    rfl
  · intro idx hidx
    unfold caffeine_cpu_gemm
    by_cases hlt : idx < C.length
    · rw [getD_map_range _ _ _ hlt, if_neg (by omega)]
    · rw [getD_map_range_ge _ _ _ (by omega), getD_ge _ _ (by omega)]

theorem cpu_gemv_contract {α : Type} [CommRing α] :
    GemvContract (caffeine_cpu_gemv : GemvFn α) := by
  intro TA M N alpha A x beta y _ _ hy
  refine ⟨gemv_length _ _ _ _ _ _ _ _, ?_, ?_⟩
  · intro r hr
    exact gemv_getD _ _ _ _ _ _ _ _ r hr hy
  · intro idx hidx
    unfold caffeine_cpu_gemv
    by_cases hlt : idx < y.length
    · rw [getD_map_range _ _ _ hlt, if_neg (by omega)]
    · rw [getD_map_range_ge _ _ _ (by omega), getD_ge _ _ (by omega)]

theorem loop_gemm_contract {α : Type} [CommRing α] :
    GemmContract (loop_gemm : GemmFn α) := by
  intro TA TB M N K alpha A B beta C _ _ hC
  refine ⟨by simp [loop_gemm], ?_, ?_⟩
  · intro i hi j hj
    have h1 := idx_lt hi hj
    unfold loop_gemm
    rw [getD_map_range _ _ _ (by omega), if_pos h1, idx_div hj, idx_mod hj, foldl_add_eq_sum]
  · intro idx hidx
    unfold loop_gemm
    by_cases hlt : idx < C.length
    · rw [getD_map_range _ _ _ hlt, if_neg (by omega)]
    · rw [getD_map_range_ge _ _ _ (by omega), getD_ge _ _ (by omega)]

theorem loop_gemv_contract {α : Type} [CommRing α] :
    GemvContract (loop_gemv : GemvFn α) := by
  intro TA M N alpha A x beta y _ _ hy
  refine ⟨by simp [loop_gemv], ?_, ?_⟩
  · intro r hr
    unfold loop_gemv
    rw [getD_map_range _ _ _ (by omega), if_pos hr, foldl_add_eq_sum]
    cases TA <;> rfl
  · intro idx hidx
    unfold loop_gemv
    by_cases hlt : idx < y.length
    · rw [getD_map_range _ _ _ hlt, if_neg (by omega)]
    · rw [getD_map_range_ge _ _ _ (by omega), getD_ge _ _ (by omega)]

/-- Two primitives that meet the matrix-multiply contract return the same array. -/
theorem gemm_contract_unique {α : Type} [CommRing α] (g g' : GemmFn α)
    (hg : GemmContract g) (hg' : GemmContract g')
    (TA TB : CBLAS_TRANSPOSE) (M N K : Nat) (alpha : α) (A B : List α) (beta : α)
    (C : List α) (hA : M * K ≤ A.length) (hB : K * N ≤ B.length) (hC : M * N ≤ C.length) :
    g TA TB M N K alpha A B beta C = g' TA TB M N K alpha A B beta C := by
  obtain ⟨hl, he, hr⟩ := hg TA TB M N K alpha A B beta C hA hB hC
  obtain ⟨hl', he', hr'⟩ := hg' TA TB M N K alpha A B beta C hA hB hC
  apply list_ext_getD _ _ (by rw [hl, hl'])
  intro idx _
  by_cases hlt : idx < M * N
  · obtain ⟨h1, h2, h3⟩ := idx_decomp hlt
    rw [← h3, he _ h1 _ h2, he' _ h1 _ h2]
  · rw [hr idx (by omega), hr' idx (by omega)]

/-- Two primitives that meet the matrix-vector contract return the same array. -/
theorem gemv_contract_unique {α : Type} [CommRing α] (v v' : GemvFn α)
    (hv : GemvContract v) (hv' : GemvContract v')
    (TA : CBLAS_TRANSPOSE) (M N : Nat) (alpha : α) (A x : List α) (beta : α)
    (y : List α) (hA : M * N ≤ A.length) (hx : gemvLen TA N M ≤ x.length)
    (hy : gemvLen TA M N ≤ y.length) :
    v TA M N alpha A x beta y = v' TA M N alpha A x beta y := by
  obtain ⟨hl, he, hr⟩ := hv TA M N alpha A x beta y hA hx hy
  obtain ⟨hl', he', hr'⟩ := hv' TA M N alpha A x beta y hA hx hy
  apply list_ext_getD _ _ (by rw [hl, hl'])
  intro idx _
  by_cases hlt : idx < gemvLen TA M N
  · rw [he idx hlt, he' idx hlt]
  · rw [hr idx (by omega), hr' idx (by omega)]

theorem Forward_cpu_eq_gpu {α : Type} [CommRing α] (L : InnerProductLayer α)
    (bottom top : List (Blob α)) :
    Forward_cpu L bottom top = Forward_gpu caffeine_cpu_gemm L bottom top := rfl

theorem Backward_cpu_eq_gpu {α : Type} [CommRing α] (L : InnerProductLayer α)
    (bottom top : List (Blob α)) (pd : Bool) :
    Backward_cpu L top pd bottom
      = Backward_gpu caffeine_cpu_gemm caffeine_cpu_gemv L top pd bottom := rfl

theorem Forward_gpu_nobias {α : Type} [CommRing α] (g : GemmFn α)
    (L : InnerProductLayer α)
    (b t w : Blob α) (hw : L.blobs_[0]? = some w) (hbt : L.biasterm_ = false) :
    Forward_gpu g L [b] [t] = some (State.mk L [b] [{ t with
      data := g CBLAS_TRANSPOSE.CblasNoTrans CBLAS_TRANSPOSE.CblasNoTrans
        L.M_ L.N_ L.K_ 1 b.data w.data 0 t.data }]) := by
  simp [Forward_gpu, hw, hbt]

theorem Forward_gpu_bias {α : Type} [CommRing α] (g : GemmFn α)
    (L : InnerProductLayer α)
    (b t w bias : Blob α) (bm : List α)
    (hw : L.blobs_[0]? = some w) (hbt : L.biasterm_ = true)
    (hbm : L.bias_multiplier_ = some bm) (hb1 : L.blobs_[1]? = some bias) :
    Forward_gpu g L [b] [t] = some (State.mk L [b] [{ t with
      data := g CBLAS_TRANSPOSE.CblasNoTrans CBLAS_TRANSPOSE.CblasNoTrans
        L.M_ L.N_ 1 1 bm bias.data 1
        (g CBLAS_TRANSPOSE.CblasNoTrans CBLAS_TRANSPOSE.CblasNoTrans
          L.M_ L.N_ L.K_ 1 b.data w.data 0 t.data) }]) := by
  simp [Forward_gpu, hw, hbt, hbm, hb1]

theorem Backward_gpu_nobias {α : Type} [CommRing α] (g : GemmFn α) (v : GemvFn α)
    (L : InnerProductLayer α)
    (b t w : Blob α) (rest : List (Blob α)) (pd : Bool)
    (hw : L.blobs_ = w :: rest) (hbt : L.biasterm_ = false) :
    Backward_gpu g v L [t] pd [b] = some (0, State.mk
      { L with blobs_ := { w with
          diff := g CBLAS_TRANSPOSE.CblasTrans CBLAS_TRANSPOSE.CblasNoTrans
            L.K_ L.N_ L.M_ 1 b.data t.diff 0 w.diff } :: rest }
      (if pd = true then [{ b with
          diff := g CBLAS_TRANSPOSE.CblasNoTrans CBLAS_TRANSPOSE.CblasTrans
            L.M_ L.K_ L.N_ 1 t.diff w.data 0 b.diff }] else [b])
      [t]) := by
  cases pd <;> simp [Backward_gpu, hw, hbt]

theorem Backward_gpu_bias {α : Type} [CommRing α] (g : GemmFn α) (v : GemvFn α)
    (L : InnerProductLayer α)
    (b t w bias : Blob α) (rest : List (Blob α)) (bm : List α) (pd : Bool)
    (hw : L.blobs_ = w :: bias :: rest) (hbt : L.biasterm_ = true)
    (hbm : L.bias_multiplier_ = some bm) :
    Backward_gpu g v L [t] pd [b] = some (0, State.mk
      { L with blobs_ := { w with
          diff := g CBLAS_TRANSPOSE.CblasTrans CBLAS_TRANSPOSE.CblasNoTrans
            L.K_ L.N_ L.M_ 1 b.data t.diff 0 w.diff } ::
        { bias with
          diff := v CBLAS_TRANSPOSE.CblasTrans L.M_ L.N_ 1 t.diff bm 0
            bias.diff } :: rest }
      (if pd = true then [{ b with
          diff := g CBLAS_TRANSPOSE.CblasNoTrans CBLAS_TRANSPOSE.CblasTrans
            L.M_ L.K_ L.N_ 1 t.diff w.data 0 b.diff }] else [b])
      [t]) := by
  cases pd <;> simp [Backward_gpu, hw, hbt, hbm]

/-- With device primitives that meet the contracts, the device paths return what
the host paths return in every `Ready` state. -/
theorem gpu_eq_cpu {α : Type} [CommRing α] (g : GemmFn α) (v : GemvFn α)
    (hg : GemmContract g) (hv : GemvContract v) (L : InnerProductLayer α)
    (b t : Blob α) (h : Ready L b t) :
    Forward_gpu g L [b] [t] = Forward_cpu L [b] [t] ∧
    ∀ pd, Backward_gpu g v L [t] pd [b] = Backward_cpu L [t] pd [b] := by
  obtain ⟨_, hbd, hbg, _, htd, htg, ⟨w, hw, _, hwd, hwg⟩, hbias⟩ := h
  have e1 := gemm_contract_unique g caffeine_cpu_gemm hg cpu_gemm_contract
    CBLAS_TRANSPOSE.CblasNoTrans CBLAS_TRANSPOSE.CblasNoTrans L.M_ L.N_ L.K_ 1
    b.data w.data 0 t.data (by omega) (by omega) (by omega)
  have e2 := gemm_contract_unique g caffeine_cpu_gemm hg cpu_gemm_contract
    CBLAS_TRANSPOSE.CblasTrans CBLAS_TRANSPOSE.CblasNoTrans L.K_ L.N_ L.M_ 1
    b.data t.diff 0 w.diff (by rw [Nat.mul_comm]; omega) (by omega) (by omega)
  have e3 := gemm_contract_unique g caffeine_cpu_gemm hg cpu_gemm_contract
    CBLAS_TRANSPOSE.CblasNoTrans CBLAS_TRANSPOSE.CblasTrans L.M_ L.K_ L.N_ 1
    t.diff w.data 0 b.diff (by omega) (by rw [Nat.mul_comm]; omega) (by omega)
  by_cases hbt : L.biasterm_ = true
  · obtain ⟨hbm, bias, hb1, _, hbdl, hbgl⟩ := hbias hbt
    obtain ⟨rest, hl⟩ := blobs_cons2 _ _ _ hw hb1
    have e4 := gemm_contract_unique g caffeine_cpu_gemm hg cpu_gemm_contract
      CBLAS_TRANSPOSE.CblasNoTrans CBLAS_TRANSPOSE.CblasNoTrans L.M_ L.N_ 1 1
      (List.replicate L.M_ 1) bias.data 1
      (caffeine_cpu_gemm CBLAS_TRANSPOSE.CblasNoTrans CBLAS_TRANSPOSE.CblasNoTrans
        L.M_ L.N_ L.K_ 1 b.data w.data 0 t.data)
      (by simp) (by omega) (by rw [gemm_length]; omega)
    have e5 := gemv_contract_unique v caffeine_cpu_gemv hv cpu_gemv_contract
      CBLAS_TRANSPOSE.CblasTrans L.M_ L.N_ 1 t.diff (List.replicate L.M_ 1) 0 bias.diff
      (by omega) (by simp [gemvLen]) (by simp [gemvLen]; omega)
    refine ⟨?_, fun pd => ?_⟩
    · rw [Forward_gpu_bias g L b t w bias _ hw hbt hbm hb1,
        Forward_cpu_bias L b t w bias _ hw hbt hbm hb1, e1, e4]
    · rw [Backward_gpu_bias g v L b t w bias rest _ pd hl hbt hbm,
        Backward_cpu_bias L b t w bias rest _ pd hl hbt hbm, e2, e3, e5]
  · have hbf : L.biasterm_ = false := by simpa using hbt
    obtain ⟨rest, hl⟩ := blobs_cons _ _ hw
    refine ⟨?_, fun pd => ?_⟩
    · rw [Forward_gpu_nobias g L b t w hw hbf, Forward_cpu_nobias L b t w hw hbf, e1]
    · rw [Backward_gpu_nobias g v L b t w rest pd hl hbf,
        Backward_cpu_nobias L b t w rest pd hl hbf, e2, e3]

/-- In a `Ready` state the device `Backward` returns, whatever the primitives. -/
theorem Backward_gpu_returns {α : Type} [CommRing α] (g : GemmFn α) (v : GemvFn α)
    (L : InnerProductLayer α) (b t : Blob α) (pd : Bool) (h : Ready L b t) :
    ∃ s', Backward_gpu g v L [t] pd [b] = some (0, s') := by
  obtain ⟨_, _, _, _, _, _, ⟨w, hw, _, _, _⟩, hbias⟩ := h
  by_cases hbt : L.biasterm_ = true
  · obtain ⟨hbm, bias, hb1, _, _, _⟩ := hbias hbt
    obtain ⟨rest, hl⟩ := blobs_cons2 _ _ _ hw hb1
    exact ⟨_, Backward_gpu_bias g v L b t w bias rest _ pd hl hbt hbm⟩
  · have hbf : L.biasterm_ = false := by simpa using hbt
    obtain ⟨rest, hl⟩ := blobs_cons _ _ hw
    exact ⟨_, Backward_gpu_nobias g v L b t w rest pd hl hbf⟩

/-! ## The loss and its perturbation -/

/-- The weight gradient `Backward_cpu` leaves in a `Ready` state. -/
theorem Backward_cpu_dW {α : Type} [CommRing α] (L : InnerProductLayer α)
    (b t : Blob α) (propagate_down : Bool) (h : Ready L b t) :
    ∃ r w', Backward_cpu L [t] propagate_down [b] = some r ∧
      r.2.layer.blobs_[0]? = some w' ∧ w'.diff.length = L.K_ * L.N_ ∧
      ∀ k, k < L.K_ → ∀ j, j < L.N_ →
        w'.diff.getD (k * L.N_ + j) 0 =
          ∑ i ∈ Finset.range L.M_,
            b.data.getD (i * L.K_ + k) 0 * t.diff.getD (i * L.N_ + j) 0 := by
  obtain ⟨w, s', hw0, hB, _, _, hw', _, _, _, _⟩ := Backward_cpu_spec L b t propagate_down h
  obtain ⟨_, _, _, _, _, _, ⟨w2, hw2, _, _, hwd⟩, _⟩ := h
  rw [hw0] at hw2
  cases hw2
  have hC : L.K_ * L.N_ ≤ w.diff.length := by omega
  refine ⟨_, _, hB, hw', ?_, ?_⟩
  · simp [gemm_length, hwd]
  · intro k hk j hj
    dsimp only
    rw [gemm_getD _ _ _ _ _ _ _ _ _ _ k j hk hj hC, gemmEntry_weight_grad]

theorem getD_set {α : Type} [CommRing α] (l : List α) (idx m : Nat) (a : α)
    (h : idx < l.length) :
    (l.set idx a).getD m 0 = if m = idx then a else l.getD m 0 := by
  rw [List.getD_eq_getElem?_getD, List.getD_eq_getElem?_getD, List.getElem?_set]
  by_cases hm : m = idx
  · subst hm; simp [h]
  · have : ¬ idx = m := fun hc => hm hc.symm
    simp [hm, this]

theorem idx_inj {N k j k' j' : Nat} (hj : j < N) (hj' : j' < N) :
    k' * N + j' = k * N + j ↔ k' = k ∧ j' = j := by
  constructor
  · intro h
    have h1 : (k' * N + j') / N = (k * N + j) / N := by rw [h]
    have h2 : (k' * N + j') % N = (k * N + j) % N := by rw [h]
    rw [idx_div hj', idx_div hj] at h1
    rw [idx_mod hj', idx_mod hj] at h2
    exact ⟨h1, h2⟩
  · rintro ⟨rfl, rfl⟩; rfl

theorem perturb_blobs0 {α : Type} [CommRing α] (L : InnerProductLayer α) (idx : Nat)
    (e : α) (w : Blob α) (hw : L.blobs_[0]? = some w) :
    (perturb_weight L idx e).blobs_[0]? =
      some { w with data := w.data.set idx (w.data.getD idx 0 + e) } := by
  obtain ⟨rest, hl⟩ := blobs_cons _ _ hw
  simp [perturb_weight, hl, updateAt]

theorem perturb_blobs1 {α : Type} [CommRing α] (L : InnerProductLayer α) (idx : Nat)
    (e : α) (w : Blob α) (hw : L.blobs_[0]? = some w) :
    (perturb_weight L idx e).blobs_[1]? = L.blobs_[1]? := by
  obtain ⟨rest, hl⟩ := blobs_cons _ _ hw
  simp [perturb_weight, hl, updateAt]

theorem Ready_perturb {α : Type} [CommRing α] (L : InnerProductLayer α) (b t : Blob α)
    (idx : Nat) (e : α) (h : Ready L b t) : Ready (perturb_weight L idx e) b t := by
  obtain ⟨h1, h2, h3, h4, h5, h6, ⟨w, hw, hs, hwd, hwg⟩, hbias⟩ := h
  refine ⟨h1, h2, h3, h4, h5, h6, ⟨_, perturb_blobs0 L idx e w hw, hs, ?_, hwg⟩, ?_⟩
  · simpa using hwd
  · intro hbt
    obtain ⟨hbm, bias, hb1, r⟩ := hbias hbt
    exact ⟨hbm, bias, by rw [perturb_blobs1 L idx e w hw]; exact hb1, r⟩

theorem loss_eq {α : Type} [CommRing α] (L : InnerProductLayer α) (b t w : Blob α)
    (h : Ready L b t) (hw : L.blobs_[0]? = some w) :
    loss L b t = ∑ i ∈ Finset.range L.M_, ∑ j ∈ Finset.range L.N_,
      t.diff.getD (i * L.N_ + j) 0 *
        ((∑ k ∈ Finset.range L.K_,
            b.data.getD (i * L.K_ + k) 0 * w.data.getD (k * L.N_ + j) 0)
          + (if L.biasterm_ = true then (L.blobs_.getD 1 Blob.empty).data.getD j 0
              else 0)) := by
  obtain ⟨w2, s', t', hw2, hF, _, _, htop, _, _, _, hE⟩ := Forward_cpu_spec L b t h
  rw [hw] at hw2
  cases hw2
  unfold loss
  rw [hF]
  simp only [htop, List.getElem?_cons_zero]
  apply Finset.sum_congr rfl
  intro i hi
  apply Finset.sum_congr rfl
  intro j hj
  rw [hE i (Finset.mem_range.mp hi) j (Finset.mem_range.mp hj)]

/-- The loss is affine in every weight entry, with slope the weight gradient. -/
theorem loss_perturb {α : Type} [CommRing α] (L : InnerProductLayer α) (b t : Blob α)
    (h : Ready L b t) (k j : Nat) (hk : k < L.K_) (hj : j < L.N_) (e : α) :
    loss (perturb_weight L (k * L.N_ + j) e) b t =
      loss L b t + e * ∑ i ∈ Finset.range L.M_,
        b.data.getD (i * L.K_ + k) 0 * t.diff.getD (i * L.N_ + j) 0 := by
  have hR := Ready_perturb L b t (k * L.N_ + j) e h
  have h0 := h
  obtain ⟨_, _, _, _, _, _, ⟨w, hw, _, hwd, _⟩, _⟩ := h
  have hidx : k * L.N_ + j < w.data.length := by rw [hwd]; exact idx_lt hk hj
  rw [loss_eq _ b t _ hR (perturb_blobs0 L _ e w hw), loss_eq L b t w h0 hw]
  have hb1 : (perturb_weight L (k * L.N_ + j) e).blobs_.getD 1 Blob.empty
      = L.blobs_.getD 1 Blob.empty := by
    rw [List.getD_eq_getElem?_getD, List.getD_eq_getElem?_getD, perturb_blobs1 L _ e w hw]
  rw [hb1]
  show (∑ i ∈ Finset.range L.M_, ∑ j' ∈ Finset.range L.N_,
      t.diff.getD (i * L.N_ + j') 0 *
        ((∑ k' ∈ Finset.range L.K_, b.data.getD (i * L.K_ + k') 0 *
            (w.data.set (k * L.N_ + j) (w.data.getD (k * L.N_ + j) 0 + e)).getD
              (k' * L.N_ + j') 0)
          + (if L.biasterm_ = true then (L.blobs_.getD 1 Blob.empty).data.getD j' 0
              else 0))) = _
  rw [Finset.mul_sum, ← Finset.sum_add_distrib]
  apply Finset.sum_congr rfl
  intro i _
  have hrow : ∀ j', j' ∈ Finset.range L.N_ →
      t.diff.getD (i * L.N_ + j') 0 *
        ((∑ k' ∈ Finset.range L.K_, b.data.getD (i * L.K_ + k') 0 *
            (w.data.set (k * L.N_ + j) (w.data.getD (k * L.N_ + j) 0 + e)).getD
              (k' * L.N_ + j') 0)
          + (if L.biasterm_ = true then (L.blobs_.getD 1 Blob.empty).data.getD j' 0
              else 0))
      = t.diff.getD (i * L.N_ + j') 0 *
        ((∑ k' ∈ Finset.range L.K_, b.data.getD (i * L.K_ + k') 0 *
            w.data.getD (k' * L.N_ + j') 0)
          + (if L.biasterm_ = true then (L.blobs_.getD 1 Blob.empty).data.getD j' 0
              else 0))
        + (if j' = j then t.diff.getD (i * L.N_ + j) 0 *
            (b.data.getD (i * L.K_ + k) 0 * e) else 0) := by
    intro j' hj'
    have hj'lt := Finset.mem_range.mp hj'
    have hinner : (∑ k' ∈ Finset.range L.K_, b.data.getD (i * L.K_ + k') 0 *
            (w.data.set (k * L.N_ + j) (w.data.getD (k * L.N_ + j) 0 + e)).getD
              (k' * L.N_ + j') 0)
        = (∑ k' ∈ Finset.range L.K_, b.data.getD (i * L.K_ + k') 0 *
            w.data.getD (k' * L.N_ + j') 0)
          + (if j' = j then b.data.getD (i * L.K_ + k) 0 * e else 0) := by
      by_cases hjj : j' = j
      · subst hjj
        rw [if_pos rfl]
        have : ∀ k' ∈ Finset.range L.K_, b.data.getD (i * L.K_ + k') 0 *
              (w.data.set (k * L.N_ + j') (w.data.getD (k * L.N_ + j') 0 + e)).getD
                (k' * L.N_ + j') 0
            = b.data.getD (i * L.K_ + k') 0 * w.data.getD (k' * L.N_ + j') 0
              + (if k' = k then b.data.getD (i * L.K_ + k) 0 * e else 0) := by
          intro k' _
          rw [getD_set _ _ _ _ hidx]
          by_cases hkk : k' = k
          · subst hkk
            rw [if_pos rfl, if_pos rfl]
            ring
          · rw [if_neg hkk, if_neg (fun hc => hkk ((idx_inj hj hj).mp hc).1), add_zero]
        rw [Finset.sum_congr rfl this, Finset.sum_add_distrib,
          Finset.sum_ite_eq' (Finset.range L.K_) k, if_pos (Finset.mem_range.mpr hk)]
      · rw [if_neg hjj, add_zero]
        apply Finset.sum_congr rfl
        intro k' _
        rw [getD_set _ _ _ _ hidx,
          if_neg (fun hc => hjj ((idx_inj hj hj'lt).mp hc).2)]
    rw [hinner]
    by_cases hjj : j' = j
    · subst hjj
      rw [if_pos rfl, if_pos rfl]
      ring
    · rw [if_neg hjj, if_neg hjj]
      ring
  rw [Finset.sum_congr rfl hrow, Finset.sum_add_distrib,
    Finset.sum_ite_eq' (Finset.range L.N_) j, if_pos (Finset.mem_range.mpr hj)]
  ring


/-! ## Frame lemmas and the derived dimensions -/

/-- Overwriting element `i` by an element with the same image under `f` does not
change the image of the vector under `f`. -/
theorem map_set_same {β γ : Type} (f : β → γ) (l : List β) (i : Nat) (x a : β)
    (h : l[i]? = some x) (hf : f a = f x) : (l.set i a).map f = l.map f := by
  apply List.ext_getElem?
  intro j
  rw [List.getElem?_map, List.getElem?_map, List.getElem?_set]
  by_cases hij : i = j
  · subst hij
    have hlt : i < l.length := by
      rcases Nat.lt_or_ge i l.length with hl | hl
      · exact hl
      · rw [List.getElem?_eq_none hl] at h; cases h
    simp [hlt, h, hf]
  · simp [hij]

/-- What a returning `Forward_gpu` call (over any primitive) leaves untouched:
the layer object, the bottom vector, and of the top vector everything but the
value array of its first blob. -/
theorem Forward_gpu_frame {α : Type} [CommRing α] (g : GemmFn α)
    (L : InnerProductLayer α) (bottom top : List (Blob α)) (s' : State α)
    (h : Forward_gpu g L bottom top = some s') :
    s'.layer = L ∧ s'.bottom = bottom ∧
    ∃ t0 d, top[0]? = some t0 ∧ s'.top = top.set 0 { t0 with data := d } := by
  unfold Forward_gpu at h
  cases h1 : bottom[0]? with
  | none => simp [h1] at h
  | some b0 =>
    cases h2 : top[0]? with
    | none => simp [h1, h2] at h
    | some t0 =>
      cases h3 : L.blobs_[0]? with
      | none => simp [h1, h2, h3] at h
      | some w =>
        cases h4 : L.biasterm_ with
        | false =>
          simp [h1, h2, h3, h4] at h
          subst h
          exact ⟨rfl, rfl, _, _, rfl, rfl⟩
        | true =>
          cases h5 : L.bias_multiplier_ with
          | none => simp [h1, h2, h3, h4, h5] at h
          | some bm =>
            cases h6 : L.blobs_[1]? with
            | none => simp [h1, h2, h3, h4, h5, h6] at h
            | some bias =>
              simp [h1, h2, h3, h4, h5, h6] at h
              subst h
              exact ⟨rfl, rfl, _, _, rfl, rfl⟩

/-- What a returning `Backward_gpu` call (over any primitives) returns and leaves
untouched. -/
theorem Backward_gpu_frame {α : Type} [CommRing α] (g : GemmFn α) (v : GemvFn α)
    (L : InnerProductLayer α) (top bottom : List (Blob α)) (pd : Bool)
    (r : α × State α) (h : Backward_gpu g v L top pd bottom = some r) :
    r.1 = 0 ∧ r.2.top = top ∧
    r.2.layer = { L with blobs_ := r.2.layer.blobs_ } ∧
    r.2.layer.blobs_.map Blob.data = L.blobs_.map Blob.data ∧
    r.2.layer.blobs_.map Blob.shape = L.blobs_.map Blob.shape ∧
    r.2.bottom.map Blob.data = bottom.map Blob.data ∧
    r.2.bottom.map Blob.shape = bottom.map Blob.shape ∧
    (pd = false → r.2.bottom = bottom) := by
  cases h1 : top[0]? with
  | none => simp [Backward_gpu, h1] at h
  | some t0 =>
    cases h2 : bottom[0]? with
    | none => simp [Backward_gpu, h1, h2] at h
    | some b0 =>
      cases h3 : L.blobs_[0]? with
      | none => simp [Backward_gpu, h1, h2, h3] at h
      | some w =>
        obtain ⟨trest, ht⟩ := blobs_cons _ _ h1
        obtain ⟨brest, hb⟩ := blobs_cons _ _ h2
        obtain ⟨rest, hl⟩ := blobs_cons _ _ h3
        subst ht
        subst hb
        by_cases h4 : L.biasterm_ = true
        · cases h5 : L.bias_multiplier_ with
          | none => simp [Backward_gpu, hl, h4, h5] at h
          | some bm =>
            cases h6 : L.blobs_[1]? with
            | none =>
              rw [hl] at h6
              simp [Backward_gpu, hl, h4, h5, h6] at h
              cases rest with
              | nil => simp at h
              | cons y ys => simp at h6
            | some bias =>
              obtain ⟨rest2, hl2⟩ := blobs_cons2 _ _ _ h3 h6
              cases pd <;>
                (simp [Backward_gpu, hl2, h4, h5] at h
                 subst h
                 simp [hl2, h4, h5, Blob.shape])
        · have h4f : L.biasterm_ = false := by simpa using h4
          cases pd <;>
            (simp [Backward_gpu, hl, h4f] at h
             subst h
             simp [hl, h4f, Blob.shape])

/-- In a `Ready` state the device `Forward` returns, whatever the primitive. -/
theorem Forward_gpu_returns {α : Type} [CommRing α] (g : GemmFn α)
    (L : InnerProductLayer α) (b t : Blob α) (h : Ready L b t) :
    ∃ s', Forward_gpu g L [b] [t] = some s' := by
  obtain ⟨_, _, _, _, _, _, ⟨w, hw, _, _, _⟩, hbias⟩ := h
  by_cases hbt : L.biasterm_ = true
  · obtain ⟨hbm, bias, hb1, _, _, _⟩ := hbias hbt
    exact ⟨_, Forward_gpu_bias g L b t w bias _ hw hbt hbm hb1⟩
  · have hbf : L.biasterm_ = false := by simpa using hbt
    exact ⟨_, Forward_gpu_nobias g L b t w hw hbf⟩

theorem count_div_num {α : Type} (b : Blob α) (h : b.num ≠ 0) :
    b.count / b.num = b.channels * b.height * b.width := by
  have hc : b.count = b.num * (b.channels * b.height * b.width) := by
    unfold Blob.count; ring
  rw [hc, Nat.mul_div_cancel_left _ (Nat.pos_of_ne_zero h)]

theorem count_mod_num {α : Type} (b : Blob α) : b.count % b.num = 0 := by
  have hc : b.count = b.num * (b.channels * b.height * b.width) := by
    unfold Blob.count; ring
  rw [hc, Nat.mul_mod_right]

/-! ## Example states -/

theorem ex_wf : ex_bottom.wf := ⟨rfl, rfl⟩

theorem ex_Ready : Ready ex_ready ex_bottom ex_top := by
  refine ⟨rfl, rfl, rfl, rfl, rfl, rfl, ⟨_, rfl, rfl, rfl, rfl⟩, fun _ => ⟨rfl, _, rfl, rfl, rfl, rfl⟩⟩

theorem ex_SetUp : SetUp ex_layer [ex_bottom] [ex_top] = .ok ex_after_SetUp := by
  rfl

theorem ex_Ready_nobias : Ready ex_ready_nobias ex_bottom ex_top := by
  refine ⟨rfl, rfl, rfl, rfl, rfl, rfl, ⟨_, rfl, rfl, rfl, rfl⟩, ?_⟩
  intro hc
  cases hc

theorem ex_Forward_cpu :
    (Forward_cpu ex_ready [ex_bottom] [ex_top]).map (fun s => s.top) =
      some [{ ex_top with data := [21, 34, 18, 30] }] := by
  decide

theorem ex_Backward_cpu :
    (Backward_cpu ex_ready [ex_top] true [ex_bottom]).map
        (fun r => (r.1, r.2.layer.blobs_.map Blob.diff, r.2.bottom.map Blob.diff)) =
      some (0, [[1, 2, 3, 4, 5, 8], [4, 6]], [[5, 11, 17, 11, 25, 39]]) := by
  decide

theorem ex_Backward_cpu_false :
    Backward_cpu ex_ready [ex_top] false [ex_bottom] = some ex_backward_result := by
  rfl

theorem ex_Backward_gpu_false :
    Backward_gpu loop_gemm loop_gemv ex_ready [ex_top] false [ex_bottom]
      = some ex_backward_result := by
  rfl

theorem ex_Ready_rat : Ready ex_ready_rat ex_bottom_rat ex_top_rat := by
  refine ⟨rfl, rfl, rfl, rfl, rfl, rfl, ⟨_, rfl, rfl, rfl, rfl⟩,
    fun _ => ⟨rfl, _, rfl, rfl, rfl, rfl⟩⟩

theorem ex_loss_rat : loss ex_ready_rat ex_bottom_rat ex_top_rat = 263 := by
  simp [loss, Forward_cpu, ex_ready_rat, ex_bottom_rat, ex_top_rat, caffeine_cpu_gemm,
    gemmEntry, opAt, Finset.sum_range_succ]
  norm_num

theorem ex_loss_rat_plus :
    loss (perturb_weight ex_ready_rat 2 (1 / 2)) ex_bottom_rat ex_top_rat = 529 / 2 := by
  simp [loss, Forward_cpu, perturb_weight, updateAt, ex_ready_rat, ex_bottom_rat, ex_top_rat,
    caffeine_cpu_gemm, gemmEntry, opAt, Finset.sum_range_succ]
  norm_num

theorem ex_loss_rat_minus :
    loss (perturb_weight ex_ready_rat 2 (-(1 / 2))) ex_bottom_rat ex_top_rat = 523 / 2 := by
  simp [loss, Forward_cpu, perturb_weight, updateAt, ex_ready_rat, ex_bottom_rat, ex_top_rat,
    caffeine_cpu_gemm, gemmEntry, opAt, Finset.sum_range_succ]
  norm_num

theorem ex_Forward_cpu_result :
    Forward_cpu ex_ready [ex_bottom] [ex_top] = some ex_forward_result := by
  rfl

theorem ex_Backward_cpu_down :
    Backward_cpu ex_ready [ex_top] true [ex_bottom] = some ex_backward_result_down := by
  rfl

theorem ex_Backward_gpu_down :
    Backward_gpu loop_gemm loop_gemv ex_ready [ex_top] true [ex_bottom]
      = some ex_backward_result_down := by
  rfl

/-! ## Claims -/

/-- C1. `Forward_cpu` after `SetUp`: `SetUp` on a well-formed bottom blob leaves a
`Ready` state, and in every `Ready` state (arbitrary bottom values, weights, bias
and prior content of the top blob) `Forward_cpu` returns a top blob with
`top[i][j] = ∑ k, bottom[i][k] * W[k][j]`, plus `bias[j]` when the bias term is
enabled. The bias summand does not depend on the row `i` and the right-hand side
does not mention the prior content of the top blob. -/
theorem Forward_cpu_after_SetUp {α : Type} [CommRing α] :
    (∀ (self : InnerProductLayer α) (b t : Blob α) (s : State α),
      b.wf → SetUp self [b] [t] = .ok s →
        ∃ t1, s.bottom = [b] ∧ s.top = [t1] ∧ Ready s.layer b t1) ∧
    (∀ (L : InnerProductLayer α) (b t : Blob α), Ready L b t →
      ∃ w s' t', L.blobs_[0]? = some w ∧ Forward_cpu L [b] [t] = some s' ∧
        s'.top = [t'] ∧ t'.data.length = L.M_ * L.N_ ∧
        ∀ i, i < L.M_ → ∀ j, j < L.N_ →
          t'.data.getD (i * L.N_ + j) 0 =
            (∑ k ∈ Finset.range L.K_,
              b.data.getD (i * L.K_ + k) 0 * w.data.getD (k * L.N_ + j) 0)
            + (if L.biasterm_ = true then (L.blobs_.getD 1 Blob.empty).data.getD j 0
                else 0)) := by
  refine ⟨fun self b t s hwf hs => SetUp_Ready self b t s hwf hs, ?_⟩
  intro L b t h
  obtain ⟨w, s', t', hw, hF, _, _, htop, _, _, hlen, hE⟩ := Forward_cpu_spec L b t h
  exact ⟨w, s', t', hw, hF, htop, hlen, hE⟩

theorem Forward_cpu_after_SetUp_witness :
    (ex_bottom.wf ∧ SetUp ex_layer [ex_bottom] [ex_top] = .ok ex_after_SetUp ∧
      ∃ t1, ex_after_SetUp.bottom = [ex_bottom] ∧ ex_after_SetUp.top = [t1] ∧
        Ready ex_after_SetUp.layer ex_bottom t1) ∧
    (Ready ex_ready ex_bottom ex_top ∧
      ∃ w s' t', ex_ready.blobs_[0]? = some w ∧
        Forward_cpu ex_ready [ex_bottom] [ex_top] = some s' ∧
        s'.top = [t'] ∧ t'.data.length = ex_ready.M_ * ex_ready.N_ ∧
        ∀ i, i < ex_ready.M_ → ∀ j, j < ex_ready.N_ →
          t'.data.getD (i * ex_ready.N_ + j) 0 =
            (∑ k ∈ Finset.range ex_ready.K_,
              ex_bottom.data.getD (i * ex_ready.K_ + k) 0 *
                w.data.getD (k * ex_ready.N_ + j) 0)
            + (if ex_ready.biasterm_ = true then
                (ex_ready.blobs_.getD 1 Blob.empty).data.getD j 0 else 0)) :=
  ⟨⟨ex_wf, ex_SetUp,
      Forward_cpu_after_SetUp.1 ex_layer ex_bottom ex_top ex_after_SetUp ex_wf ex_SetUp⟩,
    ⟨ex_Ready, Forward_cpu_after_SetUp.2 ex_ready ex_bottom ex_top ex_Ready⟩⟩

/-- C2. After `SetUp` on a single input buffer the weight blob has shape
`(1, 1, K, N)` and holds `K * N` values and gradients and, with the bias term
enabled, the bias blob has shape `(1, 1, 1, N)`, where `K = count / num` of the
input and `N = num_output`; `SetUp` completes whenever the leading dimension of
the input is not zero. -/
theorem SetUp_parameter_shapes {α : Type} [CommRing α] (self : InnerProductLayer α)
    (b t : Blob α) :
    (b.num ≠ 0 → ∃ s, SetUp self [b] [t] = .ok s) ∧
    (∀ s, SetUp self [b] [t] = .ok s →
      s.layer.K_ = b.count / b.num ∧ s.layer.N_ = self.layer_param_.num_output ∧
      (∃ w, s.layer.blobs_[0]? = some w ∧ w.shape = (1, 1, s.layer.K_, s.layer.N_) ∧
        w.data.length = s.layer.K_ * s.layer.N_ ∧
        w.diff.length = s.layer.K_ * s.layer.N_) ∧
      (self.layer_param_.biasterm = true →
        ∃ bias, s.layer.blobs_[1]? = some bias ∧ bias.shape = (1, 1, 1, s.layer.N_) ∧
          bias.data.length = s.layer.N_ ∧ bias.diff.length = s.layer.N_) ∧
      (self.layer_param_.biasterm = false → s.layer.blobs_.length = 1)) := by
  refine ⟨fun h0 => ⟨_, SetUp_ok self b t h0⟩, ?_⟩
  intro s hs
  by_cases h0 : b.num = 0
  · rw [SetUp_div_zero self b t h0] at hs
    cases hs
  · rw [SetUp_ok self b t h0] at hs
    injection hs with hs
    subst hs
    cases hb : self.layer_param_.biasterm <;>
      simp [SetUp_layer, hb, Blob.Reshape, Blob.shape, Filler.Fill, Blob.count]

theorem SetUp_parameter_shapes_witness :
    SetUp ex_layer [ex_bottom] [ex_top] = .ok ex_after_SetUp ∧
    (ex_after_SetUp.layer.K_ = ex_bottom.count / ex_bottom.num ∧
      ex_after_SetUp.layer.N_ = ex_layer.layer_param_.num_output ∧
      (∃ w, ex_after_SetUp.layer.blobs_[0]? = some w ∧
        w.shape = (1, 1, ex_after_SetUp.layer.K_, ex_after_SetUp.layer.N_) ∧
        w.data.length = ex_after_SetUp.layer.K_ * ex_after_SetUp.layer.N_ ∧
        w.diff.length = ex_after_SetUp.layer.K_ * ex_after_SetUp.layer.N_) ∧
      (ex_layer.layer_param_.biasterm = true →
        ∃ bias, ex_after_SetUp.layer.blobs_[1]? = some bias ∧
          bias.shape = (1, 1, 1, ex_after_SetUp.layer.N_) ∧
          bias.data.length = ex_after_SetUp.layer.N_ ∧
          bias.diff.length = ex_after_SetUp.layer.N_) ∧
      (ex_layer.layer_param_.biasterm = false → ex_after_SetUp.layer.blobs_.length = 1)) :=
  ⟨ex_SetUp, (SetUp_parameter_shapes ex_layer ex_bottom ex_top).2 ex_after_SetUp ex_SetUp⟩

/-- C3 (amended). For every single input buffer of shape `(n, c, h, w)` with
`n ≠ 0` and every `num_output`, `SetUp` completes, sets `M_ = n` and
`N_ = num_output`, and reshapes the single top blob to exactly `(M, N, 1, 1)`, so
that it holds `M * N` values and `M * N` gradients. -/
theorem SetUp_output_shape {α : Type} [CommRing α] (self : InnerProductLayer α)
    (b t : Blob α) (hn : b.num ≠ 0) :
    ∃ s t1, SetUp self [b] [t] = .ok s ∧
      s.layer.M_ = b.num ∧ s.layer.N_ = self.layer_param_.num_output ∧
      s.top = [t1] ∧ t1.shape = (s.layer.M_, s.layer.N_, 1, 1) ∧
      t1.count = s.layer.M_ * s.layer.N_ ∧
      t1.data.length = s.layer.M_ * s.layer.N_ ∧
      t1.diff.length = s.layer.M_ * s.layer.N_ := by
  refine ⟨_, _, SetUp_ok self b t hn, rfl, rfl, rfl, rfl, ?_, ?_, ?_⟩ <;>
    simp [Blob.Reshape, Blob.count, SetUp_layer]

theorem SetUp_output_shape_witness :
    ex_bottom.num ≠ 0 ∧
    ∃ s t1, SetUp ex_layer [ex_bottom] [ex_top] = .ok s ∧
      s.layer.M_ = ex_bottom.num ∧ s.layer.N_ = ex_layer.layer_param_.num_output ∧
      s.top = [t1] ∧ t1.shape = (s.layer.M_, s.layer.N_, 1, 1) ∧
      t1.count = s.layer.M_ * s.layer.N_ ∧
      t1.data.length = s.layer.M_ * s.layer.N_ ∧
      t1.diff.length = s.layer.M_ * s.layer.N_ :=
  ⟨by decide, SetUp_output_shape ex_layer ex_bottom ex_top (by decide)⟩

/-- C3 (counterexample). On an input blob of shape `(0, 3, 1, 1)` `SetUp` aborts
in the division `count / num`: at the abort `N_` is still `0`, not
`num_output = 2`, and the top blob keeps its old shape and content; so `SetUp`
does not return a state with `N_ = num_output` and a reshaped top blob. -/
theorem SetUp_output_shape_counterexample :
    SetUp ex_layer [ex_bottom_empty] [ex_top] =
      .error ⟨.division_by_zero,
        ⟨{ ex_layer with biasterm_ := true, M_ := 0 }, [ex_bottom_empty], [ex_top]⟩⟩ ∧
    ¬ ∃ s t1, SetUp ex_layer [ex_bottom_empty] [ex_top] = .ok s ∧
      s.layer.M_ = ex_bottom_empty.num ∧
      s.layer.N_ = ex_layer.layer_param_.num_output ∧
      s.top = [t1] ∧ t1.shape = (s.layer.M_, s.layer.N_, 1, 1) := by
  refine ⟨rfl, ?_⟩
  rintro ⟨s, t1, hs, _⟩
  rw [SetUp_div_zero ex_layer ex_bottom_empty ex_top rfl] at hs
  cases hs

/-- C4. `SetUp` aborts on a failed blob-count check whenever the bottom vector or
the top vector does not hold exactly one blob, and the state at that abort is the
state before the call: no buffer was reshaped and no member of the layer was
changed. When both vectors hold exactly one blob, no abort of `SetUp` is caused
by a blob-count check. -/
theorem SetUp_blob_count_checks {α : Type} [CommRing α] (self : InnerProductLayer α)
    (bottom top : List (Blob α)) :
    (bottom.length ≠ 1 →
      SetUp self bottom top = .error ⟨.check_bottom_size, ⟨self, bottom, top⟩⟩) ∧
    (bottom.length = 1 → top.length ≠ 1 →
      SetUp self bottom top = .error ⟨.check_top_size, ⟨self, bottom, top⟩⟩) ∧
    (bottom.length = 1 → top.length = 1 →
      ∀ a, SetUp self bottom top = .error a →
        a.cause ≠ .check_bottom_size ∧ a.cause ≠ .check_top_size) := by
  refine ⟨SetUp_bad_bottom self bottom top, SetUp_bad_top self bottom top, ?_⟩
  intro hb ht a ha
  obtain ⟨b, rfl⟩ := list_len_one bottom hb
  obtain ⟨t, rfl⟩ := list_len_one top ht
  by_cases h0 : b.num = 0
  · rw [SetUp_div_zero self b t h0] at ha
    injection ha with ha
    subst ha
    exact ⟨by simp, by simp⟩
  · rw [SetUp_ok self b t h0] at ha
    cases ha

theorem SetUp_blob_count_checks_witness :
    ([ex_bottom, ex_bottom].length ≠ 1 ∧
      SetUp ex_layer [ex_bottom, ex_bottom] [ex_top] =
        .error ⟨.check_bottom_size, ⟨ex_layer, [ex_bottom, ex_bottom], [ex_top]⟩⟩) ∧
    ([ex_bottom].length = 1 ∧ ([] : List (Blob ℤ)).length ≠ 1 ∧
      SetUp ex_layer [ex_bottom] [] =
        .error ⟨.check_top_size, ⟨ex_layer, [ex_bottom], []⟩⟩) ∧
    ([ex_bottom_empty].length = 1 ∧ [ex_top].length = 1 ∧
      SetUp ex_layer [ex_bottom_empty] [ex_top] =
        .error ⟨.division_by_zero,
          ⟨{ ex_layer with biasterm_ := true, M_ := 0 }, [ex_bottom_empty], [ex_top]⟩⟩ ∧
      Fatal.division_by_zero ≠ Fatal.check_bottom_size ∧
      Fatal.division_by_zero ≠ Fatal.check_top_size) :=
  ⟨⟨by decide, (SetUp_blob_count_checks ex_layer [ex_bottom, ex_bottom] [ex_top]).1
      (by decide)⟩,
    ⟨by decide, by decide, (SetUp_blob_count_checks ex_layer [ex_bottom] []).2.1
      (by decide) (by decide)⟩,
    ⟨by decide, by decide, rfl,
      (SetUp_blob_count_checks ex_layer [ex_bottom_empty] [ex_top]).2.2 (by decide)
        (by decide)
        ⟨.division_by_zero,
          ⟨{ ex_layer with biasterm_ := true, M_ := 0 }, [ex_bottom_empty], [ex_top]⟩⟩
        rfl⟩⟩

/-- C5. In every `Ready` state, whatever the weight gradient array held, for both
values of `propagate_down` and of the bias setting, `Backward_cpu` returns and
leaves `dW[k][j] = ∑ i < M, bottom[i][k] * G[i][j]` in the gradient array of the
weight blob, for all `k < K`, `j < N`. -/
theorem Backward_cpu_weight_gradient {α : Type} [CommRing α] (L : InnerProductLayer α)
    (b t : Blob α) (propagate_down : Bool) (h : Ready L b t) :
    ∃ r w', Backward_cpu L [t] propagate_down [b] = some r ∧
      r.2.layer.blobs_[0]? = some w' ∧ w'.diff.length = L.K_ * L.N_ ∧
      ∀ k, k < L.K_ → ∀ j, j < L.N_ →
        w'.diff.getD (k * L.N_ + j) 0 =
          ∑ i ∈ Finset.range L.M_,
            b.data.getD (i * L.K_ + k) 0 * t.diff.getD (i * L.N_ + j) 0 :=
  Backward_cpu_dW L b t propagate_down h

theorem Backward_cpu_weight_gradient_witness :
    Ready ex_ready ex_bottom ex_top ∧
    ∃ r w', Backward_cpu ex_ready [ex_top] true [ex_bottom] = some r ∧
      r.2.layer.blobs_[0]? = some w' ∧ w'.diff.length = ex_ready.K_ * ex_ready.N_ ∧
      ∀ k, k < ex_ready.K_ → ∀ j, j < ex_ready.N_ →
        w'.diff.getD (k * ex_ready.N_ + j) 0 =
          ∑ i ∈ Finset.range ex_ready.M_,
            ex_bottom.data.getD (i * ex_ready.K_ + k) 0 *
              ex_top.diff.getD (i * ex_ready.N_ + j) 0 :=
  ⟨ex_Ready, Backward_cpu_weight_gradient ex_ready ex_bottom ex_top true ex_Ready⟩

/-- C6. Over a field of characteristic zero, in every `Ready` state, for every
weight entry `(k, j)` and every `eps ≠ 0`, the weight gradient `Backward_cpu`
leaves at `(k, j)` equals the central difference
`(loss(W + eps at (k,j)) - loss(W - eps at (k,j))) / (2 * eps)` of
`loss(W) = ∑ i j, G[i][j] * Forward_cpu(bottom, W, bias)[i][j]`, exactly. -/
theorem Backward_cpu_matches_central_difference {α : Type} [Field α] [CharZero α]
    (L : InnerProductLayer α) (b t : Blob α) (propagate_down : Bool)
    (h : Ready L b t) (k j : Nat) (hk : k < L.K_) (hj : j < L.N_)
    (eps : α) (heps : eps ≠ 0) :
    ∃ r w', Backward_cpu L [t] propagate_down [b] = some r ∧
      r.2.layer.blobs_[0]? = some w' ∧
      w'.diff.getD (k * L.N_ + j) 0 =
        (loss (perturb_weight L (k * L.N_ + j) eps) b t
          - loss (perturb_weight L (k * L.N_ + j) (-eps)) b t) / (2 * eps) := by
  obtain ⟨r, w', hB, hw', _, hE⟩ := Backward_cpu_dW L b t propagate_down h
  refine ⟨r, w', hB, hw', ?_⟩
  rw [hE k hk j hj, loss_perturb L b t h k j hk hj eps,
    loss_perturb L b t h k j hk hj (-eps)]
  have h2 : (2 : α) * eps ≠ 0 := mul_ne_zero two_ne_zero heps
  field_simp
  ring

theorem Backward_cpu_matches_central_difference_witness :
    Ready ex_ready_rat ex_bottom_rat ex_top_rat ∧ 1 < ex_ready_rat.K_ ∧
    0 < ex_ready_rat.N_ ∧ (1 / 2 : ℚ) ≠ 0 ∧
    ∃ r w', Backward_cpu ex_ready_rat [ex_top_rat] true [ex_bottom_rat] = some r ∧
      r.2.layer.blobs_[0]? = some w' ∧
      w'.diff.getD (1 * ex_ready_rat.N_ + 0) 0 =
        (loss (perturb_weight ex_ready_rat (1 * ex_ready_rat.N_ + 0) (1 / 2))
            ex_bottom_rat ex_top_rat
          - loss (perturb_weight ex_ready_rat (1 * ex_ready_rat.N_ + 0) (-(1 / 2)))
            ex_bottom_rat ex_top_rat) / (2 * (1 / 2)) :=
  ⟨ex_Ready_rat, by decide, by decide, by norm_num,
    Backward_cpu_matches_central_difference ex_ready_rat ex_bottom_rat ex_top_rat true
      ex_Ready_rat 1 0 (by decide) (by decide) (1 / 2) (by norm_num)⟩

/-- C7. `SetUp` leaves a `Ready` state, in which the bias multiplier is `M` ones.
In every `Ready` state with the bias term enabled, whatever the bias gradient
array held, `Backward_cpu` returns and leaves the column sums
`db[j] = ∑ i < M, G[i][j]` in the gradient array of the bias blob, for all
`j < N`. With the bias term disabled `Backward_cpu` returns and every parameter
blob after the weight blob is unchanged. -/
theorem Backward_cpu_bias_gradient {α : Type} [CommRing α] :
    (∀ (self : InnerProductLayer α) (b t : Blob α) (s : State α),
      b.wf → SetUp self [b] [t] = .ok s →
        ∃ t1, s.bottom = [b] ∧ s.top = [t1] ∧ Ready s.layer b t1) ∧
    (∀ (L : InnerProductLayer α) (b t : Blob α) (propagate_down : Bool),
      Ready L b t → L.biasterm_ = true →
        ∃ r bias', Backward_cpu L [t] propagate_down [b] = some r ∧
          r.2.layer.blobs_[1]? = some bias' ∧ bias'.diff.length = L.N_ ∧
          ∀ j, j < L.N_ →
            bias'.diff.getD j 0 = ∑ i ∈ Finset.range L.M_, t.diff.getD (i * L.N_ + j) 0) ∧
    (∀ (L : InnerProductLayer α) (b t : Blob α) (propagate_down : Bool),
      Ready L b t → L.biasterm_ = false →
        ∃ r, Backward_cpu L [t] propagate_down [b] = some r ∧
          r.2.layer.blobs_.drop 1 = L.blobs_.drop 1) := by
  refine ⟨fun self b t s hwf hs => SetUp_Ready self b t s hwf hs, ?_, ?_⟩
  · intro L b t pd h hbt
    obtain ⟨w, s', _, hB, _, _, _, hb', _, _, _⟩ := Backward_cpu_spec L b t pd h
    obtain ⟨bias, hb1, hb2⟩ := hb' hbt
    obtain ⟨_, _, _, _, _, _, _, hbias⟩ := h
    obtain ⟨_, bias2, hb3, _, _, hbd⟩ := hbias hbt
    rw [hb1] at hb3
    cases hb3
    refine ⟨_, _, hB, hb2, ?_, ?_⟩
    · simp [gemv_length, hbd]
    · intro j hj
      dsimp only
      rw [gemv_getD CBLAS_TRANSPOSE.CblasTrans L.M_ L.N_ _ _ _ _ _ j hj
        (by simp [gemvLen, hbd]), gemvEntry_bias_grad]
  · intro L b t pd h hbt
    obtain ⟨w, s', _, hB, _, _, _, _, hd, _, _⟩ := Backward_cpu_spec L b t pd h
    exact ⟨_, hB, hd hbt⟩

theorem Backward_cpu_bias_gradient_witness :
    (ex_bottom.wf ∧ SetUp ex_layer [ex_bottom] [ex_top] = .ok ex_after_SetUp ∧
      ∃ t1, ex_after_SetUp.bottom = [ex_bottom] ∧ ex_after_SetUp.top = [t1] ∧
        Ready ex_after_SetUp.layer ex_bottom t1) ∧
    (Ready ex_ready ex_bottom ex_top ∧ ex_ready.biasterm_ = true ∧
      ∃ r bias', Backward_cpu ex_ready [ex_top] false [ex_bottom] = some r ∧
        r.2.layer.blobs_[1]? = some bias' ∧ bias'.diff.length = ex_ready.N_ ∧
        ∀ j, j < ex_ready.N_ →
          bias'.diff.getD j 0 =
            ∑ i ∈ Finset.range ex_ready.M_, ex_top.diff.getD (i * ex_ready.N_ + j) 0) ∧
    (Ready ex_ready_nobias ex_bottom ex_top ∧ ex_ready_nobias.biasterm_ = false ∧
      ∃ r, Backward_cpu ex_ready_nobias [ex_top] false [ex_bottom] = some r ∧
        r.2.layer.blobs_.drop 1 = ex_ready_nobias.blobs_.drop 1) :=
  ⟨⟨ex_wf, ex_SetUp,
      Backward_cpu_bias_gradient.1 ex_layer ex_bottom ex_top ex_after_SetUp ex_wf ex_SetUp⟩,
    ⟨ex_Ready, rfl,
      Backward_cpu_bias_gradient.2.1 ex_ready ex_bottom ex_top false ex_Ready rfl⟩,
    ⟨ex_Ready_nobias, rfl,
      Backward_cpu_bias_gradient.2.2 ex_ready_nobias ex_bottom ex_top false
        ex_Ready_nobias rfl⟩⟩

/-- C8. In every `Ready` state, whatever the input gradient array held,
`Backward_cpu` with `propagate_down = true` returns and leaves
`dBottom[i][k] = ∑ j < N, G[i][j] * W[k][j]` in the gradient array of the bottom
blob, for all `i < M`, `k < K`; the value array of the bottom blob is unchanged. -/
theorem Backward_cpu_bottom_gradient {α : Type} [CommRing α] (L : InnerProductLayer α)
    (b t : Blob α) (h : Ready L b t) :
    ∃ w r b', L.blobs_[0]? = some w ∧ Backward_cpu L [t] true [b] = some r ∧
      r.2.bottom = [b'] ∧ b'.data = b.data ∧ b'.diff.length = L.M_ * L.K_ ∧
      ∀ i, i < L.M_ → ∀ k, k < L.K_ →
        b'.diff.getD (i * L.K_ + k) 0 =
          ∑ j ∈ Finset.range L.N_,
            t.diff.getD (i * L.N_ + j) 0 * w.data.getD (k * L.N_ + j) 0 := by
  obtain ⟨w, s', hw0, hB, _, _, _, _, _, _, hbot⟩ := Backward_cpu_spec L b t true h
  obtain ⟨_, _, hbd, _, _, _, _, _⟩ := h
  have hC : L.M_ * L.K_ ≤ b.diff.length := by omega
  rw [if_pos rfl] at hbot
  refine ⟨w, _, _, hw0, hB, hbot, rfl, ?_, ?_⟩
  · simp [gemm_length, hbd]
  · intro i hi k hk
    dsimp only
    rw [gemm_getD _ _ _ _ _ _ _ _ _ _ i k hi hk hC, gemmEntry_bottom_grad]

theorem Backward_cpu_bottom_gradient_witness :
    Ready ex_ready ex_bottom ex_top ∧
    ∃ w r b', ex_ready.blobs_[0]? = some w ∧
      Backward_cpu ex_ready [ex_top] true [ex_bottom] = some r ∧
      r.2.bottom = [b'] ∧ b'.data = ex_bottom.data ∧
      b'.diff.length = ex_ready.M_ * ex_ready.K_ ∧
      ∀ i, i < ex_ready.M_ → ∀ k, k < ex_ready.K_ →
        b'.diff.getD (i * ex_ready.K_ + k) 0 =
          ∑ j ∈ Finset.range ex_ready.N_,
            ex_top.diff.getD (i * ex_ready.N_ + j) 0 *
              w.data.getD (k * ex_ready.N_ + j) 0 :=
  ⟨ex_Ready, Backward_cpu_bottom_gradient ex_ready ex_bottom ex_top ex_Ready⟩

/-- C9. Whatever the layer state and the blob vectors, a call of `Backward_cpu` or
of `Backward_gpu` (over any device primitives) with `propagate_down = false` that
returns leaves the bottom vector, and so the gradient array of the input blob,
identical; in every `Ready` state both calls do return. -/
theorem Backward_no_propagate_keeps_bottom {α : Type} [CommRing α] :
    (∀ (L : InnerProductLayer α) (top bottom : List (Blob α)) (r : α × State α),
      Backward_cpu L top false bottom = some r →
        r.2.bottom = bottom ∧ r.2.bottom.map Blob.diff = bottom.map Blob.diff) ∧
    (∀ (g : GemmFn α) (v : GemvFn α) (L : InnerProductLayer α)
      (top bottom : List (Blob α)) (r : α × State α),
      Backward_gpu g v L top false bottom = some r →
        r.2.bottom = bottom ∧ r.2.bottom.map Blob.diff = bottom.map Blob.diff) ∧
    (∀ (L : InnerProductLayer α) (b t : Blob α), Ready L b t →
      (∃ r, Backward_cpu L [t] false [b] = some r) ∧
      ∀ (g : GemmFn α) (v : GemvFn α), ∃ r, Backward_gpu g v L [t] false [b] = some r) := by
  refine ⟨?_, ?_, ?_⟩
  · intro L top bottom r h
    have := (Backward_cpu_frame_bottom L top bottom r h).1
    exact ⟨this, by rw [this]⟩
  · intro g v L top bottom r h
    have := (Backward_gpu_frame_bottom g v L top bottom r h).1
    exact ⟨this, by rw [this]⟩
  · intro L b t h
    refine ⟨?_, fun g v => ?_⟩
    · obtain ⟨s', hs'⟩ := Backward_gpu_returns caffeine_cpu_gemm caffeine_cpu_gemv L b t false h
      exact ⟨_, hs'⟩
    · obtain ⟨s', hs'⟩ := Backward_gpu_returns g v L b t false h
      exact ⟨_, hs'⟩

theorem Backward_no_propagate_keeps_bottom_witness :
    (Backward_cpu ex_ready [ex_top] false [ex_bottom] = some ex_backward_result ∧
      ex_backward_result.2.bottom = [ex_bottom] ∧
      ex_backward_result.2.bottom.map Blob.diff = [ex_bottom].map Blob.diff) ∧
    (Backward_gpu loop_gemm loop_gemv ex_ready [ex_top] false [ex_bottom]
        = some ex_backward_result ∧
      ex_backward_result.2.bottom = [ex_bottom] ∧
      ex_backward_result.2.bottom.map Blob.diff = [ex_bottom].map Blob.diff) ∧
    (Ready ex_ready ex_bottom ex_top ∧
      (∃ r, Backward_cpu ex_ready [ex_top] false [ex_bottom] = some r) ∧
      ∀ (g : GemmFn ℤ) (v : GemvFn ℤ),
        ∃ r, Backward_gpu g v ex_ready [ex_top] false [ex_bottom] = some r) :=
  ⟨⟨ex_Backward_cpu_false,
      Backward_no_propagate_keeps_bottom.1 ex_ready [ex_top] [ex_bottom] ex_backward_result
        ex_Backward_cpu_false⟩,
    ⟨ex_Backward_gpu_false,
      Backward_no_propagate_keeps_bottom.2.1 loop_gemm loop_gemv ex_ready [ex_top]
        [ex_bottom] ex_backward_result ex_Backward_gpu_false⟩,
    ⟨ex_Ready, Backward_no_propagate_keeps_bottom.2.2 ex_ready ex_bottom ex_top ex_Ready⟩⟩

/-- C10. The host primitives meet the matrix-multiply and matrix-vector
contracts, and for all device primitives that meet the same contracts, in every
`Ready` state (identical buffer contents on both sides), `Forward_gpu` returns
exactly what `Forward_cpu` returns and, for both values of `propagate_down`,
`Backward_gpu` returns exactly what `Backward_cpu` returns: the same loss value
and the same weight, bias and input gradients. -/
theorem gpu_paths_agree_with_cpu_paths {α : Type} [CommRing α] :
    (GemmContract (caffeine_cpu_gemm : GemmFn α) ∧
      GemvContract (caffeine_cpu_gemv : GemvFn α)) ∧
    ∀ (caffeine_gpu_gemm : GemmFn α) (caffeine_gpu_gemv : GemvFn α),
      GemmContract caffeine_gpu_gemm → GemvContract caffeine_gpu_gemv →
      ∀ (L : InnerProductLayer α) (b t : Blob α), Ready L b t →
        Forward_gpu caffeine_gpu_gemm L [b] [t] = Forward_cpu L [b] [t] ∧
        ∀ propagate_down,
          Backward_gpu caffeine_gpu_gemm caffeine_gpu_gemv L [t] propagate_down [b]
            = Backward_cpu L [t] propagate_down [b] :=
  ⟨⟨cpu_gemm_contract, cpu_gemv_contract⟩,
    fun g v hg hv L b t h => gpu_eq_cpu g v hg hv L b t h⟩

theorem gpu_paths_agree_with_cpu_paths_witness :
    GemmContract (loop_gemm : GemmFn ℤ) ∧ GemvContract (loop_gemv : GemvFn ℤ) ∧
    Ready ex_ready ex_bottom ex_top ∧
    Forward_gpu loop_gemm ex_ready [ex_bottom] [ex_top]
      = Forward_cpu ex_ready [ex_bottom] [ex_top] ∧
    ∀ propagate_down,
      Backward_gpu loop_gemm loop_gemv ex_ready [ex_top] propagate_down [ex_bottom]
        = Backward_cpu ex_ready [ex_top] propagate_down [ex_bottom] :=
  ⟨loop_gemm_contract, loop_gemv_contract, ex_Ready,
    gpu_paths_agree_with_cpu_paths.2 loop_gemm loop_gemv loop_gemm_contract
      loop_gemv_contract ex_ready ex_bottom ex_top ex_Ready⟩

/-- C11. Every call of `Backward_cpu`, and every call of `Backward_gpu` over any
device primitives, that returns, returns the loss `0`, whatever the layer state,
the blobs and `propagate_down`; in every `Ready` state both calls return, for
both values of `propagate_down`. -/
theorem Backward_returns_zero_loss {α : Type} [CommRing α] :
    (∀ (L : InnerProductLayer α) (top bottom : List (Blob α)) (propagate_down : Bool)
      (r : α × State α),
      Backward_cpu L top propagate_down bottom = some r → r.1 = 0) ∧
    (∀ (g : GemmFn α) (v : GemvFn α) (L : InnerProductLayer α)
      (top bottom : List (Blob α)) (propagate_down : Bool) (r : α × State α),
      Backward_gpu g v L top propagate_down bottom = some r → r.1 = 0) ∧
    (∀ (L : InnerProductLayer α) (b t : Blob α) (propagate_down : Bool), Ready L b t →
      (∃ s', Backward_cpu L [t] propagate_down [b] = some (0, s')) ∧
      ∀ (g : GemmFn α) (v : GemvFn α),
        ∃ s', Backward_gpu g v L [t] propagate_down [b] = some (0, s')) := by
  refine ⟨?_, ?_, ?_⟩
  · intro L top bottom pd r h
    rw [Backward_cpu_eq_gpu] at h
    exact (Backward_gpu_frame _ _ L top bottom pd r h).1
  · intro g v L top bottom pd r h
    exact (Backward_gpu_frame g v L top bottom pd r h).1
  · intro L b t pd h
    refine ⟨?_, fun g v => Backward_gpu_returns g v L b t pd h⟩
    obtain ⟨s', hs'⟩ := Backward_gpu_returns caffeine_cpu_gemm caffeine_cpu_gemv L b t pd h
    exact ⟨s', hs'⟩

theorem Backward_returns_zero_loss_witness :
    (Backward_cpu ex_ready [ex_top] true [ex_bottom] = some ex_backward_result_down ∧
      ex_backward_result_down.1 = 0) ∧
    (Backward_gpu loop_gemm loop_gemv ex_ready [ex_top] false [ex_bottom]
        = some ex_backward_result ∧ ex_backward_result.1 = 0) ∧
    (Ready ex_ready ex_bottom ex_top ∧
      (∃ s', Backward_cpu ex_ready [ex_top] true [ex_bottom] = some (0, s')) ∧
      ∀ (g : GemmFn ℤ) (v : GemvFn ℤ),
        ∃ s', Backward_gpu g v ex_ready [ex_top] true [ex_bottom] = some (0, s')) :=
  ⟨⟨ex_Backward_cpu_down,
      Backward_returns_zero_loss.1 ex_ready [ex_top] [ex_bottom] true
        ex_backward_result_down ex_Backward_cpu_down⟩,
    ⟨ex_Backward_gpu_false,
      Backward_returns_zero_loss.2.1 loop_gemm loop_gemv ex_ready [ex_top] [ex_bottom]
        false ex_backward_result ex_Backward_gpu_false⟩,
    ⟨ex_Ready, Backward_returns_zero_loss.2.2 ex_ready ex_bottom ex_top true ex_Ready⟩⟩

/-- C12. Every call of `Forward_cpu` that returns leaves the layer object (weight
and bias blobs with values and gradients, bias multiplier, `M_`, `K_`, `N_`) and
the bottom vector identical, and of the top vector changes at most the value
array of its first blob: gradients, shapes and every later blob are the same. In
every `Ready` state the call returns. -/
theorem Forward_cpu_changes_only_top_data {α : Type} [CommRing α] :
    (∀ (L : InnerProductLayer α) (bottom top : List (Blob α)) (s' : State α),
      Forward_cpu L bottom top = some s' →
        s'.layer = L ∧ s'.bottom = bottom ∧
        s'.top.map Blob.diff = top.map Blob.diff ∧
        s'.top.map Blob.shape = top.map Blob.shape ∧
        s'.top.drop 1 = top.drop 1) ∧
    (∀ (L : InnerProductLayer α) (b t : Blob α), Ready L b t →
      ∃ s', Forward_cpu L [b] [t] = some s') := by
  refine ⟨?_, ?_⟩
  · intro L bottom top s' h
    rw [Forward_cpu_eq_gpu] at h
    obtain ⟨h1, h2, t0, d, ht0, htop⟩ := Forward_gpu_frame _ L bottom top s' h
    refine ⟨h1, h2, ?_, ?_, ?_⟩
    · rw [htop]; exact map_set_same _ _ _ _ _ ht0 rfl
    · rw [htop]; exact map_set_same _ _ _ _ _ ht0 rfl
    · rw [htop]
      obtain ⟨rest, hl⟩ := blobs_cons _ _ ht0
      simp [hl]
  · intro L b t h
    exact Forward_gpu_returns caffeine_cpu_gemm L b t h

theorem Forward_cpu_changes_only_top_data_witness :
    (Forward_cpu ex_ready [ex_bottom] [ex_top] = some ex_forward_result ∧
      ex_forward_result.layer = ex_ready ∧ ex_forward_result.bottom = [ex_bottom] ∧
      ex_forward_result.top.map Blob.diff = [ex_top].map Blob.diff ∧
      ex_forward_result.top.map Blob.shape = [ex_top].map Blob.shape ∧
      ex_forward_result.top.drop 1 = [ex_top].drop 1) ∧
    (Ready ex_ready ex_bottom ex_top ∧
      ∃ s', Forward_cpu ex_ready [ex_bottom] [ex_top] = some s') :=
  ⟨⟨ex_Forward_cpu_result,
      Forward_cpu_changes_only_top_data.1 ex_ready [ex_bottom] [ex_top] ex_forward_result
        ex_Forward_cpu_result⟩,
    ⟨ex_Ready, Forward_cpu_changes_only_top_data.2 ex_ready ex_bottom ex_top ex_Ready⟩⟩

/-- C13. For every instance of `CrossEntropyLayer`, `ExactNumBottomBlobs()` returns
`2`, `ExactNumTopBlobs()` returns `1` and `type()` returns `"CrossEntropy"`. -/
theorem CrossEntropyLayer_blob_counts {α : Type} (self : CrossEntropyLayer α) :
    self.ExactNumBottomBlobs = 2 ∧ self.ExactNumTopBlobs = 1 ∧
    self.type = "CrossEntropy" :=
  ⟨rfl, rfl, rfl⟩

/-- C15. For every input blob of shape `(n, c, h, w)` with `n ≠ 0`, `SetUp`
returns with `M_ = n`, `K_ = c * h * w` and `M_ * K_ = count`, the division
`count / num` being exact, so that the offsets `i * K_ + k` with `i < M_`,
`k < K_` are exactly the offsets below `count`. With `n = 0` `SetUp` aborts in
the division by zero. -/
theorem SetUp_dimensions_cover_input {α : Type} [CommRing α]
    (self : InnerProductLayer α) (b t : Blob α) :
    (b.num ≠ 0 → ∃ s, SetUp self [b] [t] = .ok s ∧
      s.layer.M_ = b.num ∧ s.layer.K_ = b.channels * b.height * b.width ∧
      s.layer.M_ * s.layer.K_ = b.count ∧ b.count % b.num = 0 ∧
      (∀ i, i < s.layer.M_ → ∀ k, k < s.layer.K_ → i * s.layer.K_ + k < b.count) ∧
      (∀ idx, idx < b.count →
        ∃ i k, i < s.layer.M_ ∧ k < s.layer.K_ ∧ idx = i * s.layer.K_ + k)) ∧
    (b.num = 0 → ∃ a, SetUp self [b] [t] = .error a ∧ a.cause = .division_by_zero) := by
  refine ⟨?_, ?_⟩
  · intro hn
    have hK : (SetUp_layer self b).K_ = b.channels * b.height * b.width :=
      count_div_num b hn
    have hM : (SetUp_layer self b).M_ = b.num := rfl
    have hMK : (SetUp_layer self b).M_ * (SetUp_layer self b).K_ = b.count := by
      rw [hM]; exact num_mul_count_div b
    refine ⟨_, SetUp_ok self b t hn, hM, hK, hMK, count_mod_num b, ?_, ?_⟩
    · intro i hi k hk
      have := idx_lt hi hk
      dsimp only at this ⊢
      omega
    · intro idx hidx
      rw [← hMK] at hidx
      obtain ⟨h1, h2, h3⟩ := idx_decomp hidx
      exact ⟨_, _, h1, h2, h3.symm⟩
  · intro h0
    exact ⟨_, SetUp_div_zero self b t h0, rfl⟩

theorem SetUp_dimensions_cover_input_witness :
    (ex_bottom.num ≠ 0 ∧ ∃ s, SetUp ex_layer [ex_bottom] [ex_top] = .ok s ∧
      s.layer.M_ = ex_bottom.num ∧
      s.layer.K_ = ex_bottom.channels * ex_bottom.height * ex_bottom.width ∧
      s.layer.M_ * s.layer.K_ = ex_bottom.count ∧ ex_bottom.count % ex_bottom.num = 0 ∧
      (∀ i, i < s.layer.M_ → ∀ k, k < s.layer.K_ →
        i * s.layer.K_ + k < ex_bottom.count) ∧
      (∀ idx, idx < ex_bottom.count →
        ∃ i k, i < s.layer.M_ ∧ k < s.layer.K_ ∧ idx = i * s.layer.K_ + k)) ∧
    (ex_bottom_empty.num = 0 ∧
      ∃ a, SetUp ex_layer [ex_bottom_empty] [ex_top] = .error a ∧
        a.cause = .division_by_zero) :=
  ⟨⟨by decide, (SetUp_dimensions_cover_input ex_layer ex_bottom ex_top).1 (by decide)⟩,
    ⟨rfl, (SetUp_dimensions_cover_input ex_layer ex_bottom_empty ex_top).2 rfl⟩⟩

/-- C16. Every call of `Backward_cpu` that returns, for both values of
`propagate_down`, leaves the top vector (values and gradients of the output
blob), the bias multiplier, the dimensions, the value arrays and shapes of the
parameter blobs and the value arrays and shapes of the bottom blobs identical;
only gradient arrays of parameter and bottom blobs can differ. In every `Ready`
state the call returns. -/
theorem Backward_cpu_writes_only_gradients {α : Type} [CommRing α] :
    (∀ (L : InnerProductLayer α) (top bottom : List (Blob α)) (propagate_down : Bool)
      (r : α × State α),
      Backward_cpu L top propagate_down bottom = some r →
        r.2.top = top ∧
        r.2.layer.bias_multiplier_ = L.bias_multiplier_ ∧
        r.2.layer.M_ = L.M_ ∧ r.2.layer.K_ = L.K_ ∧ r.2.layer.N_ = L.N_ ∧
        r.2.layer.blobs_.map Blob.data = L.blobs_.map Blob.data ∧
        r.2.layer.blobs_.map Blob.shape = L.blobs_.map Blob.shape ∧
        r.2.bottom.map Blob.data = bottom.map Blob.data ∧
        r.2.bottom.map Blob.shape = bottom.map Blob.shape) ∧
    (∀ (L : InnerProductLayer α) (b t : Blob α) (propagate_down : Bool), Ready L b t →
      ∃ r, Backward_cpu L [t] propagate_down [b] = some r) := by
  refine ⟨?_, ?_⟩
  · intro L top bottom pd r h
    rw [Backward_cpu_eq_gpu] at h
    obtain ⟨_, h2, h3, h4, h5, h6, h7, _⟩ := Backward_gpu_frame _ _ L top bottom pd r h
    refine ⟨h2, ?_, ?_, ?_, ?_, h4, h5, h6, h7⟩
    · rw [h3]
    · rw [h3]
    · rw [h3]
    · rw [h3]
  · intro L b t pd h
    obtain ⟨s', hs'⟩ := Backward_gpu_returns caffeine_cpu_gemm caffeine_cpu_gemv L b t pd h
    exact ⟨_, hs'⟩

theorem Backward_cpu_writes_only_gradients_witness :
    (Backward_cpu ex_ready [ex_top] true [ex_bottom] = some ex_backward_result_down ∧
      ex_backward_result_down.2.top = [ex_top] ∧
      ex_backward_result_down.2.layer.bias_multiplier_ = ex_ready.bias_multiplier_ ∧
      ex_backward_result_down.2.layer.M_ = ex_ready.M_ ∧
      ex_backward_result_down.2.layer.K_ = ex_ready.K_ ∧
      ex_backward_result_down.2.layer.N_ = ex_ready.N_ ∧
      ex_backward_result_down.2.layer.blobs_.map Blob.data
        = ex_ready.blobs_.map Blob.data ∧
      ex_backward_result_down.2.layer.blobs_.map Blob.shape
        = ex_ready.blobs_.map Blob.shape ∧
      ex_backward_result_down.2.bottom.map Blob.data = [ex_bottom].map Blob.data ∧
      ex_backward_result_down.2.bottom.map Blob.shape = [ex_bottom].map Blob.shape) ∧
    (Ready ex_ready ex_bottom ex_top ∧
      ∃ r, Backward_cpu ex_ready [ex_top] false [ex_bottom] = some r) :=
  ⟨⟨ex_Backward_cpu_down,
      Backward_cpu_writes_only_gradients.1 ex_ready [ex_top] [ex_bottom] true
        ex_backward_result_down ex_Backward_cpu_down⟩,
    ⟨ex_Ready, Backward_cpu_writes_only_gradients.2 ex_ready ex_bottom ex_top false
      ex_Ready⟩⟩

end caffeine
